import Mathlib

/-!
Verification development for the c3 chess engine.

This file gives a shallow embedding, in Lean 4, of the core data model and
operations of the c3 engine (board representation, Zobrist hashing,
make/unmake of moves, repetition detection, transposition table, move
ordering, and the alpha-beta search skeleton), translated from the C++
sources (include/c3/*.hpp, src/*.cpp), together with theorems about the
embedded definitions.

Modelling conventions:
  - Machine integers are modelled as Nat with explicit reductions modulo
    2^64 (for 64-bit bitboards and Zobrist keys) or modulo 256 (for the
    uint8 clocks), applied exactly where C++ overflow/wrap-around can occur.
  - A 64-bit bitboard is a Nat kept below 2^64; left shifts reduce mod 2^64
    and bitwise complement is xor against the all-ones 64-bit mask.
  - std::optional is Option, std::vector is List.
  - C++ functions that throw are modelled as Option-returning functions,
    with none standing for the thrown exception.
  - The undo history vector is modelled as a list with the MOST RECENT entry
    first, so the C++ access history_[history_.size() - 1 - d] becomes list
    indexing at position d, push_back becomes cons and pop_back becomes tail.
-/

namespace C3

/-- 2^64, the modulus for 64-bit unsigned arithmetic. -/
def two64 : Nat := 18446744073709551616

/-- The all-ones 64-bit mask (2^64 - 1). -/
def mask64 : Nat := 18446744073709551615

/-- 64-bit left shift: shift then reduce modulo 2^64, as on uint64_t. -/
def shl64 (x n : Nat) : Nat := (x <<< n) % two64

/-- 64-bit bitwise complement: xor against the all-ones mask (for x < 2^64
this is exactly the C++ operator~ on uint64_t). -/
def compl64 (x : Nat) : Nat := mask64 ^^^ x

/-- Population count of the low 64 bits, modelling std::popcount on a
uint64_t value. -/
def popcount64 (x : Nat) : Nat :=
  (List.range 64).foldl (fun a i => a + (if x.testBit i then 1 else 0)) 0

-- ---------------------------------------------------------------------------
-- Colour (include/c3/colour.hpp)
-- ---------------------------------------------------------------------------

/-- Side colour, enum class Colour. -/
inductive Colour : Type where
  | White
  | Black
deriving DecidableEq, Repr

/-- Colour negation, operator! on Colour. -/
def Colour.not : Colour → Colour
  | .White => .Black
  | .Black => .White

/-- Numeric index of a colour (its enum value). -/
def Colour.idx : Colour → Nat
  | .White => 0
  | .Black => 1

-- ---------------------------------------------------------------------------
-- Piece (include/c3/piece.hpp)
-- ---------------------------------------------------------------------------

/-- The 12 piece variants, enum class Piece, in declaration order
WP, WN, WB, WR, WQ, WK, BP, BN, BB, BR, BQ, BK. -/
inductive Piece : Type where
  | WP | WN | WB | WR | WQ | WK
  | BP | BN | BB | BR | BQ | BK
deriving DecidableEq, Repr

/-- Numeric index of a piece (its enum value 0..11). -/
def Piece.idx : Piece → Nat
  | .WP => 0 | .WN => 1 | .WB => 2 | .WR => 3 | .WQ => 4 | .WK => 5
  | .BP => 6 | .BN => 7 | .BB => 8 | .BR => 9 | .BQ => 10 | .BK => 11

/-- Factory: pawn of a colour. -/
def pawn : Colour → Piece
  | .White => .WP
  | .Black => .BP

/-- Factory: knight of a colour. -/
def knight : Colour → Piece
  | .White => .WN
  | .Black => .BN

/-- Factory: bishop of a colour. -/
def bishop : Colour → Piece
  | .White => .WB
  | .Black => .BB

/-- Factory: rook of a colour. -/
def rook : Colour → Piece
  | .White => .WR
  | .Black => .BR

/-- Factory: queen of a colour. -/
def queen : Colour → Piece
  | .White => .WQ
  | .Black => .BQ

/-- Factory: king of a colour. -/
def king : Colour → Piece
  | .White => .WK
  | .Black => .BK

/-- ALL_PIECES, the 12 pieces in enum order. -/
def allPieces : List Piece :=
  [.WP, .WN, .WB, .WR, .WQ, .WK, .BP, .BN, .BB, .BR, .BQ, .BK]

/-- PIECES_BY_COLOUR lookup, pieces_for(colour). -/
def piecesFor : Colour → List Piece
  | .White => [.WP, .WN, .WB, .WR, .WQ, .WK]
  | .Black => [.BP, .BN, .BB, .BR, .BQ, .BK]

/-- PROMOTION_PIECES lookup, promotions_for(colour). -/
def promotionsFor : Colour → List Piece
  | .White => [.WN, .WB, .WR, .WQ]
  | .Black => [.BN, .BB, .BR, .BQ]

/-- is_pawn(piece). -/
def isPawn (p : Piece) : Bool := p = .WP ∨ p = .BP

/-- is_king(piece). -/
def isKing (p : Piece) : Bool := p = .WK ∨ p = .BK

/-- colour(piece): pieces with ordinal at most WK are White. -/
def pieceColour (p : Piece) : Colour :=
  if p.idx ≤ Piece.WK.idx then .White else .Black

-- ---------------------------------------------------------------------------
-- Squares and bitboard constants (include/c3/square.hpp, bitboard.hpp)
-- ---------------------------------------------------------------------------

/-- A square is its uint8 index: bit 0 = A1, bit 7 = H1, bit 63 = H8.
Wrap-around of the underlying uint8 is modelled with mod 256 where the C++
code does uint8 arithmetic. -/
abbrev Square := Nat

/-- Square::from_file_and_rank. -/
def squareOf (file rank : Nat) : Square := (rank <<< 3) ||| file

/-- Square::file(): index & 7. -/
def Sq.file (s : Square) : Nat := s &&& 7

/-- Square::rank(): index >> 3. -/
def Sq.rank (s : Square) : Nat := s >>> 3

/-- Square::to_bitboard(): 1 shifted to the square's index (uint64). -/
def Sq.bb (s : Square) : Nat := shl64 1 s

/-- Square::file_diff. -/
def Sq.fileDiff (a b : Square) : Nat :=
  if Sq.file a > Sq.file b then Sq.file a - Sq.file b else Sq.file b - Sq.file a

/-- Square::rank_diff. -/
def Sq.rankDiff (a b : Square) : Nat :=
  if Sq.rank a > Sq.rank b then Sq.rank a - Sq.rank b else Sq.rank b - Sq.rank a

/-- Square::advance(colour): one rank forward for the colour, with uint8
wrap-around (index + 8 or index - 8 on a uint8). -/
def Sq.advance (s : Square) (c : Colour) : Square :=
  match c with
  | .White => (s + 8) % 256
  | .Black => (s + 248) % 256

/-- BACK_RANKS: ranks 1 and 8. -/
def BACK_RANKS : Nat := 0xFF000000000000FF

/-- CORNERS: a1, h1, a8, h8. -/
def CORNERS : Nat := 0x8100000000000081

/-- FILE_MASKS: vertical file masks A..H. -/
def FILE_MASK (f : Nat) : Nat := shl64 0x0101010101010101 f

/-- Square::is_back_rank(). -/
def Sq.isBackRank (s : Square) : Bool := (Sq.bb s &&& BACK_RANKS) ≠ 0

/-- Square::is_corner(). -/
def Sq.isCorner (s : Square) : Bool := (Sq.bb s &&& CORNERS) ≠ 0

/-- List of set-bit indices of a bitboard in ascending order: the order in
which Square::pop_first_occupied enumerates a bitboard's squares. -/
def bitIndices (bb : Nat) : List Nat := (List.range 64).filter bb.testBit

-- ---------------------------------------------------------------------------
-- Castling rights (include/c3/castling.hpp)
-- ---------------------------------------------------------------------------

/-- CastlingRights: a 4-bit mask. Bit 0 = WhiteKing, bit 1 = WhiteQueen,
bit 2 = BlackKing, bit 3 = BlackQueen. -/
structure CastlingRights : Type where
  mask : Nat
deriving DecidableEq, Repr

namespace CastlingRights

/-- CastlingRights::none(). -/
def none : CastlingRights := ⟨0⟩

/-- CastlingRights::all(). -/
def all : CastlingRights := ⟨0b1111⟩

/-- CastlingRights::remove(right), with the right given as its bit value;
the C++ code ands with the uint8 complement of the bit. -/
def removeBit (cr : CastlingRights) (bit : Nat) : CastlingRights :=
  ⟨cr.mask &&& (255 - bit)⟩

/-- CastlingRights::remove_for_colour. -/
def removeForColour (cr : CastlingRights) (c : Colour) : CastlingRights :=
  match c with
  | .White => (cr.removeBit 1).removeBit 2
  | .Black => (cr.removeBit 4).removeBit 8

/-- CastlingRights::remove_for_square: defined for the four corner squares
only; on any other square the C++ code throws std::invalid_argument,
modelled as none. -/
def removeForSquare (cr : CastlingRights) (s : Square) : Option CastlingRights :=
  if s = 0 then some (cr.removeBit 2)
  else if s = 7 then some (cr.removeBit 1)
  else if s = 56 then some (cr.removeBit 8)
  else if s = 63 then some (cr.removeBit 4)
  else Option.none

/-- CastlingRights::value(). -/
def value (cr : CastlingRights) : Nat := cr.mask

end CastlingRights

-- ---------------------------------------------------------------------------
-- Move (include/c3/move.hpp)
-- ---------------------------------------------------------------------------

/-- struct Move. -/
structure Move : Type where
  piece : Piece
  from_sq : Square
  to_sq : Square
  captured_piece : Option Piece := Option.none
  promotion_piece : Option Piece := Option.none
  is_en_passant : Bool := false
deriving DecidableEq, Repr

namespace Move

/-- Move::capture_square(): the square the captured piece stands on; for en
passant it is one rank behind the target in the captured pawn's own forward
direction. -/
def captureSquare (m : Move) : Option Square :=
  match m.captured_piece with
  | Option.none => Option.none
  | some cp =>
    if m.is_en_passant then some (Sq.advance m.to_sq (pieceColour cp))
    else some m.to_sq

/-- Move::file_diff(). -/
def fileDiff (m : Move) : Nat := Sq.fileDiff m.from_sq m.to_sq

/-- Move::rank_diff(). -/
def rankDiff (m : Move) : Nat := Sq.rankDiff m.from_sq m.to_sq

/-- Move::is_castling(): a king move crossing more than one file. -/
def isCastling (m : Move) : Bool := isKing m.piece && m.fileDiff > 1

/-- Move::operator==: equality of moves IGNORES the captured_piece field
(it is informational for unmake and does not identify the move). -/
def beqSrc (a b : Move) : Bool :=
  a.piece = b.piece && a.from_sq = b.from_sq && a.to_sq = b.to_sq &&
  a.promotion_piece = b.promotion_piece && a.is_en_passant = b.is_en_passant

end Move

-- ---------------------------------------------------------------------------
-- Board (include/c3/board.hpp)
-- ---------------------------------------------------------------------------

/-- class Board: hybrid mailbox + per-piece and per-colour bitboards, kept in
lock-step by put_piece / remove_piece. -/
structure Board : Type where
  squares : Fin 64 → Option Piece
  pieces : Piece → Nat
  colours : Colour → Nat

namespace Board

/-- Board::empty(). -/
def empty : Board :=
  ⟨fun _ => Option.none, fun _ => 0, fun _ => 0⟩

/-- Board::piece_at(square). The C++ code indexes the 64-slot mailbox with
the square's uint8 index; indices outside 0..63 are out of bounds there
(a programmer error), modelled as none. -/
def pieceAt (b : Board) (s : Square) : Option Piece :=
  if h : s < 64 then b.squares ⟨s, h⟩ else Option.none

/-- Board::has_piece_at(square). -/
def hasPieceAt (b : Board) (s : Square) : Bool := (b.pieceAt s).isSome

/-- Board::put_piece(piece, square): writes the mailbox slot and sets the
square's bit in the piece's and its colour's bitboards. The C++ code
requires a square index below 64 (anything else is an out-of-bounds write);
the embedding leaves the board unchanged in that impossible case. -/
def putPiece (b : Board) (p : Piece) (s : Square) : Board :=
  if _h : s < 64 then
    { squares := fun t => if t.val = s then some p else b.squares t
      pieces := fun q => if q = p then b.pieces p ||| Sq.bb s else b.pieces q
      colours := fun c =>
        if c = pieceColour p then b.colours c ||| Sq.bb s else b.colours c }
  else b

/-- Board::remove_piece(square): looks the square up in the mailbox; if
empty, does nothing, otherwise clears the mailbox slot and the square's bit
in the found piece's and its colour's bitboards. -/
def removePiece (b : Board) (s : Square) : Board :=
  match b.pieceAt s with
  | Option.none => b
  | some p =>
    { squares := fun t => if t.val = s then Option.none else b.squares t
      pieces := fun q =>
        if q = p then b.pieces p &&& compl64 (Sq.bb s) else b.pieces q
      colours := fun c =>
        if c = pieceColour p then b.colours c &&& compl64 (Sq.bb s)
        else b.colours c }

/-- Board::occupancy(): union of the two colour bitboards. -/
def occupancy (b : Board) : Nat := b.colours .White ||| b.colours .Black

/-- Board::has_occupancy_at(squares). -/
def hasOccupancyAt (b : Board) (bb : Nat) : Bool := (b.occupancy &&& bb) ≠ 0

/-- Board::count_pieces(piece): population count of the piece's bitboard. -/
def countPieces (b : Board) (p : Piece) : Nat := popcount64 (b.pieces p)

end Board

-- ---------------------------------------------------------------------------
-- Deterministic RNG and the Zobrist table (include/c3/rng.hpp, zobrist.hpp)
-- ---------------------------------------------------------------------------

/-- One step of the xorshift64 generator HashRng::next on the 64-bit state:
x ^= x << 13; x ^= x >> 7; x ^= x << 17. -/
def rngNext (s : Nat) : Nat :=
  let x1 := s ^^^ shl64 s 13
  let x2 := x1 ^^^ (x1 >>> 7)
  x2 ^^^ shl64 x2 17

/-- HASH_SEED. -/
def HASH_SEED : Nat := 0xC3C3C3C3C3C3C3C3

/-- The next n outputs of the RNG when its current state is s. -/
def rngOutputs : Nat → Nat → List Nat
  | 0, _ => []
  | n + 1, s =>
    let x := rngNext s
    x :: rngOutputs n x

/-- The full stream of RNG outputs consumed by make_zobrist_table, in
order: 768 piece-square values, the side value, 16 castling values, 8 en
passant file values (793 outputs in total). Held as one list so concrete
evaluation walks the xorshift chain once. -/
def zobStream : List Nat := rngOutputs 793 HASH_SEED

/-- The n-th RNG output (n counted from 0): state after n+1 steps. -/
def rngOut (n : Nat) : Nat := zobStream.getD n 0

/-- ZOBRIST.piece_square[piece][square]. make_zobrist_table fills the table
piece by piece, file-major then rank within the file, so the square with
index rank*8+file receives stream element piece*64 + file*8 + rank. -/
def zobPieceSquare (p : Piece) (s : Square) : Nat :=
  rngOut (p.idx * 64 + Sq.file s * 8 + Sq.rank s)

/-- ZOBRIST.colour_to_move: the stream element after the 768 piece-square
values. -/
def zobColourToMove : Nat := rngOut 768

/-- ZOBRIST.castling_rights[mask]: the 16 stream elements after the side
value. -/
def zobCastlingRights (mask : Nat) : Nat := rngOut (769 + mask)

/-- ZOBRIST.en_passant_files[file]: the 8 stream elements after the
castling values. -/
def zobEnPassantFile (file : Nat) : Nat := rngOut (785 + file)

-- ---------------------------------------------------------------------------
-- Pawn attacks and en passant sources (src/movegen.cpp)
-- ---------------------------------------------------------------------------

/-- PAWN_ATTACKS[colour][square] as a function: the two forward diagonals,
with file masks preventing wrap-around (make_pawn_attacks). -/
def pawnAttacksBB (c : Colour) (s : Square) : Nat :=
  let bb := Sq.bb s
  match c with
  | .White => shl64 (bb &&& compl64 (FILE_MASK 0)) 7 |||
              shl64 (bb &&& compl64 (FILE_MASK 7)) 9
  | .Black => ((bb &&& compl64 (FILE_MASK 7)) >>> 7) |||
              ((bb &&& compl64 (FILE_MASK 0)) >>> 9)

/-- en_passant_sources(square, colour, board): pawns of the given colour
that can capture en passant onto the square, found by reverse pawn-attack
lookup. -/
def en_passant_sources (e : Square) (c : Colour) (b : Board) : Nat :=
  pawnAttacksBB (Colour.not c) e &&& b.pieces (pawn c)

-- ---------------------------------------------------------------------------
-- Position (include/c3/position.hpp, src/position.cpp)
-- ---------------------------------------------------------------------------

/-- detail::HistoryEntry: the state a move destroys irreversibly. -/
structure HistoryEntry : Type where
  castling_rights : CastlingRights
  en_passant_square : Option Square
  half_move_clock : Nat
  key : Nat
deriving DecidableEq, Repr

instance : Inhabited HistoryEntry := ⟨⟨CastlingRights.none, Option.none, 0, 0⟩⟩

/-- class Position. The uint8 clocks are Nats kept below 256 (their
arithmetic wraps mod 256 exactly where the C++ uint8 arithmetic wraps).
The history list holds the most recent entry FIRST. -/
structure Position : Type where
  board : Board
  colour_to_move : Colour
  castling_rights : CastlingRights
  en_passant_square : Option Square
  half_move_clock : Nat
  full_move_counter : Nat
  key : Nat
  history : List HistoryEntry

namespace Position

/-- Position::opponent_colour(). -/
def opponentColour (pos : Position) : Colour := Colour.not pos.colour_to_move

end Position

/-- The piece loop of Position::compute_key: xor the piece-square value of
every piece on the board, iterating the bitboards in enum order and low
bits first. -/
def piecesKey (b : Board) : Nat :=
  allPieces.foldl (fun acc p =>
    (bitIndices (b.pieces p)).foldl
      (fun a i => a ^^^ zobPieceSquare p i) acc) 0

namespace Position

/-- Position::compute_key(): the Zobrist hash recomputed from scratch. The
en passant file is included only when a capturing pawn actually exists. -/
def computeKey (pos : Position) : Nat :=
  let r1 := piecesKey pos.board
  let r2 := if pos.colour_to_move = .Black then r1 ^^^ zobColourToMove else r1
  let r3 := r2 ^^^ zobCastlingRights pos.castling_rights.value
  match pos.en_passant_square with
  | some e =>
    if en_passant_sources e pos.colour_to_move pos.board ≠ 0 then
      r3 ^^^ zobEnPassantFile (Sq.file e)
    else r3
  | Option.none => r3

/-- The Position constructor taking board, side, castling, en passant and
clocks: it starts with an empty history and sets key = compute_key(). -/
def fromParts (board : Board) (colour_to_move : Colour)
    (castling_rights : CastlingRights) (en_passant_square : Option Square)
    (half_move_clock full_move_counter : Nat) : Position :=
  let p0 : Position :=
    { board, colour_to_move, castling_rights, en_passant_square,
      half_move_clock, full_move_counter, key := 0, history := [] }
  { p0 with key := computeKey p0 }

/-- Position::make_move, translated step by step from src/position.cpp.
The only C++ failure points are the two guarded CastlingRights::
remove_for_square calls (which throw on a non-corner square); they are the
only sources of the Option. -/
def makeMove? (pos : Position) (mv : Move) : Option Position :=
  -- push history
  let hist : HistoryEntry :=
    ⟨pos.castling_rights, pos.en_passant_square, pos.half_move_clock, pos.key⟩
  let history := hist :: pos.history
  -- xor out a previously keyed en passant file
  let key :=
    match pos.en_passant_square with
    | some e =>
      if en_passant_sources e pos.colour_to_move pos.board ≠ 0 then
        pos.key ^^^ zobEnPassantFile (Sq.file e)
      else pos.key
    | Option.none => pos.key
  let half := (pos.half_move_clock + 1) % 256
  -- capture handling (capture_square() is some exactly when captured_piece is)
  let step1 : Board × Nat × Nat :=
    match mv.captured_piece with
    | some cp =>
      let cs := if mv.is_en_passant then Sq.advance mv.to_sq (pieceColour cp)
                else mv.to_sq
      (pos.board.removePiece cs, key ^^^ zobPieceSquare cp cs, 0)
    | Option.none => (pos.board, key, half)
  let board := step1.1
  let key := step1.2.1
  let half := step1.2.2
  -- pawn handling: clock reset and double-push en passant target
  let step2 : Option Square × Nat × Nat :=
    if isPawn mv.piece then
      if mv.rankDiff = 2 then
        let sq := Sq.advance mv.from_sq pos.colour_to_move
        let key' :=
          if en_passant_sources sq (Colour.not pos.colour_to_move) board ≠ 0 then
            key ^^^ zobEnPassantFile (Sq.file sq)
          else key
        (some sq, key', 0)
      else (Option.none, key, 0)
    else (Option.none, key, half)
  let ep := step2.1
  let key := step2.2.1
  let half := step2.2.2
  -- king handling: drop both castling rights, move the rook when castling
  let step3 : CastlingRights × Board × Nat :=
    if isKing mv.piece then
      let cr := pos.castling_rights.removeForColour pos.colour_to_move
      if mv.isCastling then
        let rookP := rook pos.colour_to_move
        if mv.to_sq = 2 ∨ mv.to_sq = 58 then
          let rookTo := squareOf 3 (Sq.rank mv.to_sq)
          let rookFrom := squareOf 0 (Sq.rank mv.to_sq)
          (cr, (board.putPiece rookP rookTo).removePiece rookFrom,
           key ^^^ zobPieceSquare rookP rookTo ^^^ zobPieceSquare rookP rookFrom)
        else if mv.to_sq = 6 ∨ mv.to_sq = 62 then
          let rookTo := squareOf 5 (Sq.rank mv.to_sq)
          let rookFrom := squareOf 7 (Sq.rank mv.to_sq)
          (cr, (board.putPiece rookP rookTo).removePiece rookFrom,
           key ^^^ zobPieceSquare rookP rookTo ^^^ zobPieceSquare rookP rookFrom)
        else (cr, board, key)
      else (cr, board, key)
    else (pos.castling_rights, board, key)
  let cr := step3.1
  let board := step3.2.1
  let key := step3.2.2
  -- corner squares clear the corresponding right (may throw in C++)
  (if Sq.isCorner mv.from_sq then cr.removeForSquare mv.from_sq
   else some cr).bind fun cr =>
  (if Sq.isCorner mv.to_sq then cr.removeForSquare mv.to_sq
   else some cr).bind fun cr =>
  -- xor new and old castling values, move the mover, flip side
  let key := (key ^^^ zobCastlingRights cr.value) ^^^
             zobCastlingRights pos.castling_rights.value
  let toPiece := mv.promotion_piece.getD mv.piece
  let board := (board.putPiece toPiece mv.to_sq).removePiece mv.from_sq
  let key := (key ^^^ zobPieceSquare toPiece mv.to_sq) ^^^
             zobPieceSquare mv.piece mv.from_sq
  let full :=
    if pos.colour_to_move = .Black then (pos.full_move_counter + 1) % 256
    else pos.full_move_counter
  some
    { board, colour_to_move := Colour.not pos.colour_to_move,
      castling_rights := cr, en_passant_square := ep,
      half_move_clock := half, full_move_counter := full,
      key := key ^^^ zobColourToMove, history }

/-- Position::make_move as a total function. By theorem
castling_throw_unreachable the Option is always some, so the getD default
is never taken. -/
def makeMove (pos : Position) (mv : Move) : Position :=
  (pos.makeMove? mv).getD pos

/-- Position::unmake_move. The C++ code asserts a non-empty history; with
an empty history (a programmer error there) the embedding returns the
position unchanged. -/
def unmakeMove (pos : Position) (mv : Move) : Position :=
  match pos.history with
  | [] => pos
  | h :: rest =>
    let board :=
      if mv.isCastling then
        let rookP := rook (Colour.not pos.colour_to_move)
        if mv.to_sq = 2 ∨ mv.to_sq = 58 then
          let rookTo := squareOf 0 (Sq.rank mv.to_sq)
          let rookFrom := squareOf 3 (Sq.rank mv.to_sq)
          (pos.board.putPiece rookP rookTo).removePiece rookFrom
        else if mv.to_sq = 6 ∨ mv.to_sq = 62 then
          let rookTo := squareOf 7 (Sq.rank mv.to_sq)
          let rookFrom := squareOf 5 (Sq.rank mv.to_sq)
          (pos.board.putPiece rookP rookTo).removePiece rookFrom
        else pos.board
      else pos.board
    let board := (board.removePiece mv.to_sq).putPiece mv.piece mv.from_sq
    let board :=
      match mv.captured_piece with
      | some cp =>
        let cs := if mv.is_en_passant then Sq.advance mv.to_sq (pieceColour cp)
                  else mv.to_sq
        board.putPiece cp cs
      | Option.none => board
    let colour := Colour.not pos.colour_to_move
    let full :=
      if colour = .Black then (pos.full_move_counter + 255) % 256
      else pos.full_move_counter
    { board, colour_to_move := colour, castling_rights := h.castling_rights,
      en_passant_square := h.en_passant_square,
      half_move_clock := h.half_move_clock, full_move_counter := full,
      key := h.key, history := rest }

/-- Position::make_null_move. -/
def makeNullMove (pos : Position) : Position :=
  let hist : HistoryEntry :=
    ⟨pos.castling_rights, pos.en_passant_square, pos.half_move_clock, pos.key⟩
  let key :=
    match pos.en_passant_square with
    | some e =>
      if en_passant_sources e pos.colour_to_move pos.board ≠ 0 then
        pos.key ^^^ zobEnPassantFile (Sq.file e)
      else pos.key
    | Option.none => pos.key
  let full :=
    if pos.colour_to_move = .Black then (pos.full_move_counter + 1) % 256
    else pos.full_move_counter
  { pos with
    history := hist :: pos.history,
    en_passant_square := Option.none,
    half_move_clock := (pos.half_move_clock + 1) % 256,
    full_move_counter := full,
    colour_to_move := Colour.not pos.colour_to_move,
    key := key ^^^ zobColourToMove }

/-- Position::unmake_null_move. -/
def unmakeNullMove (pos : Position) : Position :=
  match pos.history with
  | [] => pos
  | h :: rest =>
    let colour := Colour.not pos.colour_to_move
    let full :=
      if colour = .Black then (pos.full_move_counter + 255) % 256
      else pos.full_move_counter
    { pos with
      castling_rights := h.castling_rights,
      en_passant_square := h.en_passant_square,
      half_move_clock := h.half_move_clock,
      key := h.key,
      colour_to_move := colour,
      full_move_counter := full,
      history := rest }

/-- Position::is_fifty_move_draw(). -/
def isFiftyMoveDraw (pos : Position) : Bool := pos.half_move_clock ≥ 100

/-- The scanning loop of Position::is_repetition_draw, walking entries
paired with their backward distance, carrying the match counter. -/
def repScan (key : Nat) (searchPly : Nat) :
    List (Nat × HistoryEntry) → Nat → Bool
  | [], _ => false
  | (d, e) :: rest, counter =>
    if d < 3 ∨ d % 2 = 0 then repScan key searchPly rest counter
    else if e.key ≠ key then repScan key searchPly rest counter
    else if d < searchPly then true
    else if counter + 1 = 2 then true
    else repScan key searchPly rest (counter + 1)

/-- Position::is_repetition_draw(search_ply). -/
def isRepetitionDraw (pos : Position) (searchPly : Nat) : Bool :=
  if pos.half_move_clock < 8 then false
  else
    let limit := min pos.half_move_clock pos.history.length
    repScan pos.key searchPly
      ((List.range limit).map (fun d => (d, pos.history.getD d default))) 0

end Position

-- ---------------------------------------------------------------------------
-- Board and position well-formedness, and coherence of a move with a position
-- ---------------------------------------------------------------------------

/-- The Board representation invariant the C++ code maintains through
put_piece/remove_piece: every bitboard is 64-bit, a piece bitboard has bit
s set exactly when the mailbox holds that piece at s, and a colour bitboard
has bit s set exactly when the mailbox holds a piece of that colour at s. -/
def Board.invB (b : Board) : Bool :=
  allPieces.all (fun p => b.pieces p < two64) &&
  b.colours .White < two64 && b.colours .Black < two64 &&
  (List.range 64).all (fun i =>
    allPieces.all (fun p => (b.pieces p).testBit i == (b.pieceAt i == some p)) &&
    ((b.colours .White).testBit i ==
      (match b.pieceAt i with
       | some p => pieceColour p == Colour.White
       | Option.none => false)) &&
    ((b.colours .Black).testBit i ==
      (match b.pieceAt i with
       | some p => pieceColour p == Colour.Black
       | Option.none => false)))

/-- Position well-formedness: the board invariant, the 4-bit castling mask,
the 8-bit clocks, and the correctness of the incremental key. -/
def Position.wfB (pos : Position) : Bool :=
  pos.board.invB && pos.castling_rights.mask < 16 &&
  pos.half_move_clock < 256 && pos.full_move_counter < 256 &&
  pos.key == pos.computeKey

/-- Rook-placement side conditions for a generated castling move: the rook
stands on its corner, its destination is empty, and the four involved
squares are pairwise distinct. -/
def castlingRookOkB (pos : Position) (mv : Move) (fFrom fTo : Nat) : Bool :=
  let rf := squareOf fFrom (Sq.rank mv.to_sq)
  let rt := squareOf fTo (Sq.rank mv.to_sq)
  rf ≠ mv.from_sq && rf ≠ mv.to_sq && rt ≠ mv.from_sq && rt ≠ mv.to_sq &&
  pos.board.pieceAt rf == some (rook pos.colour_to_move) &&
  pos.board.pieceAt rt == (Option.none : Option Piece)

/-- Coherence of a move with a position: exactly the preconditions the C++
make_move/unmake_move pair relies on (the mover stands on the from square,
the announced captured piece stands on the capture square, the target of a
quiet move is empty, the rook of a generated castling move is in place).
Every move produced by the move generator on a well-formed position
satisfies this. -/
def Move.okB (pos : Position) (mv : Move) : Bool :=
  mv.from_sq < 64 && mv.to_sq < 64 && mv.from_sq ≠ mv.to_sq &&
  pos.board.pieceAt mv.from_sq == some mv.piece &&
  pieceColour mv.piece == pos.colour_to_move &&
  (match mv.captured_piece with
   | Option.none => pos.board.pieceAt mv.to_sq == Option.none
   | some cp =>
     if mv.is_en_passant then
       let cs := Sq.advance mv.to_sq (pieceColour cp)
       cs ≠ mv.from_sq && cs ≠ mv.to_sq &&
       pos.board.pieceAt cs == some cp &&
       pos.board.pieceAt mv.to_sq == Option.none
     else pos.board.pieceAt mv.to_sq == some cp) &&
  (if isPawn mv.piece && mv.rankDiff == 2 then
     mv.captured_piece == (Option.none : Option Piece) &&
     mv.promotion_piece == (Option.none : Option Piece)
   else true) &&
  (if mv.isCastling then
     mv.captured_piece == (Option.none : Option Piece) &&
     (if mv.to_sq = 2 ∨ mv.to_sq = 58 then
        castlingRookOkB pos mv 0 3
      else if mv.to_sq = 6 ∨ mv.to_sq = 62 then
        castlingRookOkB pos mv 7 5
      else true)
   else true)

-- ---------------------------------------------------------------------------
-- Call traces of make/unmake operations
-- ---------------------------------------------------------------------------

/-- One call on a Position: make_move, unmake_move, make_null_move or
unmake_null_move. -/
inductive Op : Type where
  | make (m : Move)
  | unmake (m : Move)
  | makeNull
  | unmakeNull
deriving DecidableEq, Repr

/-- Apply one call to a position. -/
def applyOp (p : Position) : Op → Position
  | .make m => p.makeMove m
  | .unmake m => p.unmakeMove m
  | .makeNull => p.makeNullMove
  | .unmakeNull => p.unmakeNullMove

/-- Validity of a call sequence: makes require a coherent (legal) move,
unmakes must match the innermost outstanding make, as in any well-nested
use of the API by search or perft. The stack records the outstanding makes
(none marks a null move). -/
def validOpsB : Position → List Op → List (Option Move) → Bool
  | _, [], _ => true
  | p, .make m :: rest, st =>
    m.okB p && validOpsB (p.makeMove m) rest (some m :: st)
  | p, .makeNull :: rest, st =>
    validOpsB p.makeNullMove rest (Option.none :: st)
  | p, .unmake m :: rest, some m' :: st =>
    decide (m = m') && validOpsB (p.unmakeMove m) rest st
  | p, .unmakeNull :: rest, Option.none :: st =>
    validOpsB p.unmakeNullMove rest st
  | _, .unmake _ :: _, _ => false
  | _, .unmakeNull :: _, _ => false

/-- The successive positions reached while replaying a call sequence. -/
def replay (p : Position) : List Op → List Position
  | [] => []
  | op :: rest =>
    let q := applyOp p op
    q :: replay q rest

-- ---------------------------------------------------------------------------
-- Attack queries (src/movegen.cpp; the magic-bitboard tables of magic.hpp
-- are generated offline and are not part of the sources)
-- ---------------------------------------------------------------------------

/-- KNIGHT_ATTACKS[square] as a function (make_knight_attacks). -/
def knightAttacksBB (s : Square) : Nat :=
  let bb := Sq.bb s
  let nA := compl64 (FILE_MASK 0)
  let nB := compl64 (FILE_MASK 1)
  let nG := compl64 (FILE_MASK 6)
  let nH := compl64 (FILE_MASK 7)
  shl64 (bb &&& nA &&& nB) 6 ||| shl64 (bb &&& nG &&& nH) 10 |||
  shl64 (bb &&& nA) 15 ||| shl64 (bb &&& nH) 17 |||
  ((bb &&& nG &&& nH) >>> 6) ||| ((bb &&& nA &&& nB) >>> 10) |||
  ((bb &&& nH) >>> 15) ||| ((bb &&& nA) >>> 17)

/-- KING_ATTACKS[square] as a function (make_king_attacks). -/
def kingAttacksBB (s : Square) : Nat :=
  let bb := Sq.bb s
  let nA := compl64 (FILE_MASK 0)
  let nH := compl64 (FILE_MASK 7)
  shl64 (bb &&& nH) 1 ||| ((bb &&& nA) >>> 1) ||| shl64 bb 8 |||
  shl64 (bb &&& nA) 7 ||| shl64 (bb &&& nH) 9 ||| (bb >>> 8) |||
  ((bb &&& nH) >>> 7) ||| ((bb &&& nA) >>> 9)

/-- One sliding ray from a square: walk in direction (df, dr) collecting
squares until the board edge or until (and including) the first occupied
square. -/
def rayBB (occ : Nat) : Nat → Int → Int → Int → Int → Nat
  | 0, _, _, _, _ => 0
  | steps + 1, f, r, df, dr =>
    let f' := f + df
    let r' := r + dr
    if 0 ≤ f' ∧ f' < 8 ∧ 0 ≤ r' ∧ r' < 8 then
      let idx := (r' * 8 + f').toNat
      if occ.testBit idx then Sq.bb idx
      else Sq.bb idx ||| rayBB occ steps f' r' df dr
    else 0

/-- Modelled from the spec: the magic-bitboard tables (magic.hpp, produced
by the offline generator) map each blocker configuration to the sliding
attack set for that occupancy, so bishop_attacks(square, board) is the
union of the four diagonal rays stopped at the first blocker. -/
def bishopAttacksBB (s : Square) (b : Board) : Nat :=
  let occ := b.occupancy
  let f : Int := Sq.file s
  let r : Int := Sq.rank s
  rayBB occ 7 f r 1 1 ||| rayBB occ 7 f r 1 (-1) |||
  rayBB occ 7 f r (-1) 1 ||| rayBB occ 7 f r (-1) (-1)

/-- Modelled from the spec: the magic-bitboard tables (magic.hpp, produced
by the offline generator) map each blocker configuration to the sliding
attack set for that occupancy, so rook_attacks(square, board) is the union
of the four orthogonal rays stopped at the first blocker. -/
def rookAttacksBB (s : Square) (b : Board) : Nat :=
  let occ := b.occupancy
  let f : Int := Sq.file s
  let r : Int := Sq.rank s
  rayBB occ 7 f r 1 0 ||| rayBB occ 7 f r (-1) 0 |||
  rayBB occ 7 f r 0 1 ||| rayBB occ 7 f r 0 (-1)

/-- pawn_attacks(square, colour, board): table lookup masked with the enemy
occupancy. -/
def pawnAttacksOf (s : Square) (c : Colour) (b : Board) : Nat :=
  pawnAttacksBB c s &&& b.colours (Colour.not c)

/-- attacks_for(piece, square, board). -/
def attacks_for (p : Piece) (s : Square) (b : Board) : Nat :=
  match p with
  | .WP | .BP => pawnAttacksOf s (pieceColour p) b
  | .WN | .BN => knightAttacksBB s
  | .WB | .BB => bishopAttacksBB s b
  | .WR | .BR => rookAttacksBB s b
  | .WQ | .BQ => bishopAttacksBB s b ||| rookAttacksBB s b
  | .WK | .BK => kingAttacksBB s

/-- get_attackers(square, colour, board): reverse attack lookup. -/
def get_attackers (s : Square) (c : Colour) (b : Board) : Nat :=
  let pawnMask := pawnAttacksOf s (Colour.not c) b
  let knightMask := knightAttacksBB s
  let bishopMask := bishopAttacksBB s b
  let rookMask := rookAttacksBB s b
  let queenMask := bishopMask ||| rookMask
  let kingMask := kingAttacksBB s
  (b.pieces (pawn c) &&& pawnMask) ||| (b.pieces (knight c) &&& knightMask) |||
  (b.pieces (bishop c) &&& bishopMask) ||| (b.pieces (rook c) &&& rookMask) |||
  (b.pieces (queen c) &&& queenMask) ||| (b.pieces (king c) &&& kingMask)

/-- is_attacked(square, colour, board). -/
def is_attacked (s : Square) (c : Colour) (b : Board) : Bool :=
  get_attackers s c b ≠ 0

/-- Square::first_occupied: index of the least significant set bit
(std::countr_zero, which is 64 on a zero bitboard). -/
def firstOccupied (bb : Nat) : Nat :=
  ((List.range 64).find? bb.testBit).getD 64

/-- is_in_check(colour, board). -/
def is_in_check (c : Colour) (b : Board) : Bool :=
  is_attacked (firstOccupied (b.pieces (king c))) (Colour.not c) b

-- ---------------------------------------------------------------------------
-- Move generation (src/movegen.cpp)
-- ---------------------------------------------------------------------------

/-- PAWN_START_RANKS. -/
def pawnStartRank : Colour → Nat
  | .White => 1
  | .Black => 6

/-- pawn_advances(square, colour, board): single push to an empty square,
double push from the start rank when both squares are empty. -/
def pawnAdvancesBB (s : Square) (c : Colour) (b : Board) : Nat :=
  let one := Sq.advance s c
  if b.hasPieceAt one then 0
  else if Sq.rank s ≠ pawnStartRank c then Sq.bb one
  else
    let two := Sq.advance one c
    if b.hasPieceAt two then Sq.bb one
    else Sq.bb one ||| Sq.bb two

/-- WHITE_KING_CASTLING_PATH (F1, G1). -/
def WHITE_KING_CASTLING_PATH : Nat := Sq.bb 5 ||| Sq.bb 6

/-- BLACK_KING_CASTLING_PATH (F8, G8). -/
def BLACK_KING_CASTLING_PATH : Nat := Sq.bb 61 ||| Sq.bb 62

/-- WHITE_QUEEN_CASTLING_PATH (B1, C1, D1). -/
def WHITE_QUEEN_CASTLING_PATH : Nat := Sq.bb 1 ||| Sq.bb 2 ||| Sq.bb 3

/-- BLACK_QUEEN_CASTLING_PATH (B8, C8, D8). -/
def BLACK_QUEEN_CASTLING_PATH : Nat := Sq.bb 57 ||| Sq.bb 58 ||| Sq.bb 59

/-- white_castling(rights, board). -/
def whiteCastlingBB (cr : CastlingRights) (b : Board) : Nat :=
  let m1 :=
    if cr.mask &&& 1 ≠ 0 && !b.hasOccupancyAt WHITE_KING_CASTLING_PATH &&
       !is_attacked 5 .Black b then Sq.bb 6 else 0
  let m2 :=
    if cr.mask &&& 2 ≠ 0 && !b.hasOccupancyAt WHITE_QUEEN_CASTLING_PATH &&
       !is_attacked 3 .Black b then Sq.bb 2 else 0
  m1 ||| m2

/-- black_castling(rights, board). -/
def blackCastlingBB (cr : CastlingRights) (b : Board) : Nat :=
  let m1 :=
    if cr.mask &&& 4 ≠ 0 && !b.hasOccupancyAt BLACK_KING_CASTLING_PATH &&
       !is_attacked 61 .White b then Sq.bb 62 else 0
  let m2 :=
    if cr.mask &&& 8 ≠ 0 && !b.hasOccupancyAt BLACK_QUEEN_CASTLING_PATH &&
       !is_attacked 59 .White b then Sq.bb 58 else 0
  m1 ||| m2

/-- castling_moves(rights, colour, board): available castle targets, empty
when the king is currently in check. -/
def castlingMovesBB (cr : CastlingRights) (c : Colour) (b : Board) : Nat :=
  let moves := match c with
    | .White => whiteCastlingBB cr b
    | .Black => blackCastlingBB cr b
  if moves ≠ 0 && !is_in_check c b then moves else 0

/-- The moves pushed for one (piece, from, to) triple: four promotions for
a pawn reaching the back rank, one plain move otherwise. -/
def movesForTarget (pos : Position) (p : Piece) (fromSq toSq : Square) :
    List Move :=
  let captured := pos.board.pieceAt toSq
  if isPawn p && Sq.isBackRank toSq then
    (promotionsFor pos.colour_to_move).map fun promo =>
      ⟨p, fromSq, toSq, captured, some promo, false⟩
  else [⟨p, fromSq, toSq, captured, Option.none, false⟩]

/-- The en passant moves appended at the end of both generators. -/
def enPassantMoves (pos : Position) : List Move :=
  match pos.en_passant_square with
  | some e =>
    (bitIndices (en_passant_sources e pos.colour_to_move pos.board)).map
      fun fromSq =>
        ⟨pawn pos.colour_to_move, fromSq, e,
         some (pawn (Colour.not pos.colour_to_move)), Option.none, true⟩
  | Option.none => []

/-- pseudo_legal_moves(pos), in the generator's order: own pieces in enum
order, from squares low bit first, target squares low bit first, the four
promotions expanded in N, B, R, Q order, en passant moves last. -/
def pseudoLegalMoves (pos : Position) : List Move :=
  let c := pos.colour_to_move
  ((piecesFor c).flatMap fun p =>
    (bitIndices (pos.board.pieces p)).flatMap fun fromSq =>
      let ts := compl64 (pos.board.colours c) &&& attacks_for p fromSq pos.board
      let ts :=
        if isPawn p then ts ||| pawnAdvancesBB fromSq c pos.board
        else if isKing p then ts ||| castlingMovesBB pos.castling_rights c pos.board
        else ts
      (bitIndices ts).flatMap fun toSq => movesForTarget pos p fromSq toSq)
  ++ enPassantMoves pos

-- ---------------------------------------------------------------------------
-- Static evaluation (include/c3/eval.hpp, src/eval.cpp)
-- ---------------------------------------------------------------------------

/-- CENTIPAWN_MAX. -/
def CENTIPAWN_MAX : Int := 10000

/-- CENTIPAWN_MIN. -/
def CENTIPAWN_MIN : Int := -10000

/-- CENTIPAWN_DRAW. -/
def CENTIPAWN_DRAW : Int := 0

/-- CENTIPAWN_MATE. -/
def CENTIPAWN_MATE : Int := 10000

/-- CENTIPAWN_MATE_THRESHOLD: CENTIPAWN_MATE - 255. -/
def CENTIPAWN_MATE_THRESHOLD : Int := 9745

/-- PIECE_VALUES. -/
def PIECE_VALUES (p : Piece) : Int :=
  match p with
  | .WP | .BP => 100
  | .WN | .BN => 300
  | .WB | .BB => 350
  | .WR | .BR => 500
  | .WQ | .BQ => 900
  | .WK | .BK => 0

/-- PIECE_SQUARE_BASE: the six white-perspective piece-square tables, in
the written order of the source (first row = table indices 0..7). -/
def PIECE_SQUARE_BASE (kind : Nat) : List Int :=
  match kind with
  | 0 => -- pawn
    [ 0,   0,   0,   0,   0,   0,   0,   0,
     60,  60,  60,  60,  70,  60,  60,  60,
     40,  40,  40,  50,  60,  40,  40,  40,
     20,  20,  20,  40,  50,  20,  20,  20,
      5,   5,  15,  30,  40,  10,   5,   5,
      5,   5,  10,  20,  30,   5,   5,   5,
      5,   5,   5, -30, -30,   5,   5,   5,
      0,   0,   0,   0,   0,   0,   0,   0]
  | 1 => -- knight
    [-20, -10, -10, -10, -10, -10, -10, -20,
     -10,  -5,  -5,  -5,  -5,  -5,  -5, -10,
     -10,  -5,  15,  15,  15,  15,  -5, -10,
     -10,  -5,  15,  15,  15,  15,  -5, -10,
     -10,  -5,  15,  15,  15,  15,  -5, -10,
     -10,  -5,  10,  15,  15,  15,  -5, -10,
     -10,  -5,  -5,  -5,  -5,  -5,  -5, -10,
     -20, -10, -10, -10, -10, -10, -10, -20]
  | 2 => -- bishop
    [-20,   0,   0,   0,   0,   0,   0, -20,
     -15,   0,   0,   0,   0,   0,   0, -15,
     -10,   0,   0,   5,   5,   0,   0, -10,
     -10,  10,  10,  30,  30,  10,  10, -10,
       5,   5,  10,  25,  25,  10,   5,   5,
       5,   5,   5,  10,  10,   5,   5,   5,
     -10,   5,   5,  10,  10,   5,   5, -10,
     -20, -10, -10, -10, -10, -10, -10, -20]
  | 3 => -- rook
    [ 0,   0,   0,   0,   0,   0,   0,   0,
     15,  15,  15,  20,  20,  15,  15,  15,
      0,   0,   0,   0,   0,   0,   0,   0,
      0,   0,   0,   0,   0,   0,   0,   0,
      0,   0,   0,   0,   0,   0,   0,   0,
      0,   0,   0,   0,   0,   0,   0,   0,
      0,   0,   0,   0,   0,   0,   0,   0,
      0,   0,   0,  10,  10,  10,   0,   0]
  | 4 => -- queen
    [-30, -20, -10, -10, -10, -10, -20, -30,
     -20, -10,  -5,  -5,  -5,  -5, -10, -20,
     -10,  -5,  10,  10,  10,  10,  -5, -10,
     -10,  -5,  10,  20,  20,  10,  -5, -10,
     -10,  -5,  10,  20,  20,  10,  -5, -10,
     -10,  -5,  -5,  -5,  -5,  -5,  -5, -10,
     -20, -10,  -5,  -5,  -5,  -5, -10, -20,
     -30, -20, -10, -10, -10, -10, -20, -30]
  | _ => -- king
    [ 0,   0,   0,   0,   0,   0,   0,   0,
      0,   0,   0,   0,   0,   0,   0,   0,
      0,   0,   0,   0,   0,   0,   0,   0,
      0,   0,   0,  20,  20,   0,   0,   0,
      0,   0,   0,  20,  20,   0,   0,   0,
      0,   0,   0,   0,   0,   0,   0,   0,
      0,   0,   0, -10, -10,   0,   0,   0,
      0,   0,  20, -10, -10,   0,  20,   0]

/-- RANK_FLIP_TABLE as a function: White squares are vertically mirrored
(the table entry for square s is s with the rank bits inverted, i.e.
s xor 56), Black squares map to themselves. -/
def rankFlip (c : Colour) (s : Nat) : Nat :=
  match c with
  | .White => s ^^^ 56
  | .Black => s

/-- PIECE_SQUARE_TABLES[piece][square] (build_psqt): the base table of the
piece's kind, indexed through the colour's rank flip. -/
def PIECE_SQUARE_TABLES (p : Piece) (s : Square) : Int :=
  (PIECE_SQUARE_BASE (p.idx % 6)).getD (rankFlip (pieceColour p) s) 0

/-- eval_material(colour, board). -/
def eval_material (c : Colour) (b : Board) : Int :=
  (piecesFor c).foldl
    (fun total p => total + PIECE_VALUES p * (b.countPieces p : Int)) 0

/-- eval_psqt(colour, board). -/
def eval_psqt (c : Colour) (b : Board) : Int :=
  (piecesFor c).foldl
    (fun total p =>
      (bitIndices (b.pieces p)).foldl
        (fun t s => t + PIECE_SQUARE_TABLES p s) total) 0

/-- PHASE_TOTAL: 4 knights + 4 bishops + 4 rooks at weight shares plus two
queens (4*1 + 4*1 + 4*2 + 2*4). -/
def PHASE_TOTAL : Int := 24

/-- calculate_game_phase(board): non-pawn material normalised to 0..256. -/
def calculate_game_phase (b : Board) : Int :=
  let phase : Int :=
    (popcount64 (b.pieces .WN) : Int) + (popcount64 (b.pieces .BN) : Int) +
    (popcount64 (b.pieces .WB) : Int) + (popcount64 (b.pieces .BB) : Int) +
    2 * (popcount64 (b.pieces .WR) : Int) + 2 * (popcount64 (b.pieces .BR) : Int) +
    4 * (popcount64 (b.pieces .WQ) : Int) + 4 * (popcount64 (b.pieces .BQ) : Int)
  Int.tdiv (phase * 256 + Int.tdiv PHASE_TOTAL 2) PHASE_TOTAL

/-- PAWN_SHIELD_BONUS for rank offsets 0, 1, 2. -/
def PAWN_SHIELD_BONUS (i : Nat) : Int :=
  match i with
  | 0 => 12
  | 1 => 8
  | _ => 4

/-- shield_files(king_sq): left, own and right file of the king, -1 when
off the board. -/
def shield_files (kingSq : Square) : List Int :=
  let file : Int := Sq.file kingSq
  [if file > 0 then file - 1 else -1, file, if file < 7 then file + 1 else -1]

/-- is_kingside(king_sq). -/
def is_kingside (kingSq : Square) : Bool := Sq.file kingSq ≥ 4

/-- The inner rank scan of eval_pawn_shield: the shield contribution of one
file, searching rank offsets 0, 1, 2 for the first own pawn. -/
def shieldFileScore (c : Colour) (kingSq : Square) (ownPawns : Nat)
    (file : Int) : Int :=
  if file < 0 then 0
  else
    let baseRank : Int := if c = .White then 1 else 6
    let dir : Int := if c = .White then 1 else -1
    let hit := (List.range 3).find? fun (off : Nat) =>
      let rank : Int := baseRank + dir * (off : Int)
      if 0 ≤ rank ∧ rank ≤ 7 then
        decide ((ownPawns &&& Sq.bb (squareOf file.toNat rank.toNat)) ≠ 0)
      else false
    match hit with
    | some off => PAWN_SHIELD_BONUS off
    | Option.none =>
      if is_kingside kingSq then
        if file = 5 then -25 else if file = 6 then -15
        else if file = 7 then -8 else 0
      else
        if file = 2 then -25 else if file = 1 then -15
        else if file = 0 then -8 else 0

/-- eval_pawn_shield(colour, king_sq, board). -/
def eval_pawn_shield (c : Colour) (kingSq : Square) (b : Board) : Int :=
  let ownPawns := b.pieces (pawn c)
  (shield_files kingSq).foldl
    (fun score f => score + shieldFileScore c kingSq ownPawns f) 0

/-- eval_open_files(colour, king_sq, board). -/
def eval_open_files (c : Colour) (kingSq : Square) (b : Board) : Int :=
  let ownPawns := b.pieces (pawn c)
  let enemyPawns := b.pieces (pawn (Colour.not c))
  (shield_files kingSq).foldl
    (fun score f =>
      if f < 0 then score
      else
        let fm := FILE_MASK f.toNat
        let hasOwn := (ownPawns &&& fm) ≠ 0
        let hasEnemy := (enemyPawns &&& fm) ≠ 0
        if !hasOwn && !hasEnemy then score + (-20)
        else if !hasOwn && hasEnemy then score + (-10)
        else score) 0

/-- manhattan_distance(a, b). -/
def manhattan_distance (a b : Square) : Int :=
  (Sq.fileDiff a b : Int) + (Sq.rankDiff a b : Int)

/-- chebyshev_distance(a, b). -/
def chebyshev_distance (a b : Square) : Int :=
  max (Sq.fileDiff a b : Int) (Sq.rankDiff a b : Int)

/-- eval_attack_zone(colour, king_sq, board): enemy minor and major pieces
within a kind-dependent Chebyshev radius of the king, scored quadratically
(weight times count times 3). -/
def eval_attack_zone (c : Colour) (kingSq : Square) (b : Board) : Int :=
  let enemy := Colour.not c
  let countAndWeight := fun (bb : Nat) (radius : Int) (weight : Int) =>
    (bitIndices bb).foldl
      (fun (acc : Nat × Int) sq =>
        if chebyshev_distance sq kingSq ≤ radius then
          (acc.1 + 1, acc.2 + weight)
        else acc) (0, 0)
  let kn := countAndWeight (b.pieces (knight enemy)) 2 2
  let bi := countAndWeight (b.pieces (bishop enemy)) 3 2
  let ro := countAndWeight (b.pieces (rook enemy)) 3 3
  let qu := countAndWeight (b.pieces (queen enemy)) 4 5
  let attackerCount : Int := (kn.1 : Int) + bi.1 + ro.1 + qu.1
  let attackWeight : Int := kn.2 + bi.2 + ro.2 + qu.2
  if attackerCount = 0 then 0 else -attackWeight * attackerCount * 3

/-- eval_tropism(colour, king_sq, board): Manhattan-distance proximity
penalties for enemy knights, bishops, rooks and queens. -/
def eval_tropism (c : Colour) (kingSq : Square) (b : Board) : Int :=
  let enemy := Colour.not c
  let tropism := fun (bb : Nat) (weight : Int) =>
    (bitIndices bb).foldl
      (fun acc sq =>
        acc - Int.tdiv (weight * (14 - manhattan_distance sq kingSq)) 2) 0
  tropism (b.pieces (knight enemy)) 1 + tropism (b.pieces (bishop enemy)) 1 +
  tropism (b.pieces (rook enemy)) 2 + tropism (b.pieces (queen enemy)) 3

/-- eval_king_safety(colour, board): pawn shield, open files, attack zone
and tropism, scaled by game phase and reduced when the enemy has no
queen. -/
def eval_king_safety (c : Colour) (b : Board) : Int :=
  if b.pieces (king c) = 0 then 0
  else
    let kingSq := firstOccupied (b.pieces (king c))
    let phase := calculate_game_phase b
    let enemyHasQueen := b.pieces (queen (Colour.not c)) ≠ 0
    let score := eval_pawn_shield c kingSq b + eval_open_files c kingSq b +
                 eval_attack_zone c kingSq b + eval_tropism c kingSq b
    let score := Int.tdiv (score * phase) 256
    if !enemyHasQueen then Int.tdiv score 4 else score

/-- eval(pos): material, piece-square and king-safety balance from White's
point of view, negated when Black is to move. -/
def eval (pos : Position) : Int :=
  let material := eval_material .White pos.board - eval_material .Black pos.board
  let psqtScore := eval_psqt .White pos.board - eval_psqt .Black pos.board
  let kingSafety :=
    eval_king_safety .White pos.board - eval_king_safety .Black pos.board
  let score := material + psqtScore + kingSafety
  if pos.colour_to_move = .White then score else -score

/-- pseudo_legal_noisy_moves(pos): captures, promotion pushes and en
passant only. -/
def pseudoLegalNoisyMoves (pos : Position) : List Move :=
  let c := pos.colour_to_move
  let capturesMask := pos.board.colours (Colour.not c)
  ((piecesFor c).flatMap fun p =>
    (bitIndices (pos.board.pieces p)).flatMap fun fromSq =>
      let ts := capturesMask &&& attacks_for p fromSq pos.board
      let ts :=
        if isPawn p then ts ||| (pawnAdvancesBB fromSq c pos.board &&& BACK_RANKS)
        else ts
      (bitIndices ts).flatMap fun toSq => movesForTarget pos p fromSq toSq)
  ++ enPassantMoves pos

-- ---------------------------------------------------------------------------
-- Search support (include/c3/search.hpp, src/search.cpp)
-- ---------------------------------------------------------------------------

/-- MAX_DEPTH. -/
def MAX_DEPTH : Nat := 255

/-- TT_MIN_SIZE_MB. -/
def TT_MIN_SIZE_MB : Nat := 1

/-- TT_MAX_SIZE_MB. -/
def TT_MAX_SIZE_MB : Nat := 4096

/-- TT_DEFAULT_SIZE_MB. -/
def TT_DEFAULT_SIZE_MB : Nat := 64

/-- enum class Bound. -/
inductive Bound : Type where
  | Exact
  | Lower
  | Upper
deriving DecidableEq, Repr

/-- struct TTEntry; value-initialisation zeroes the key and depth, makes
the bound Exact (its first enumerator) and the move empty. -/
structure TTEntry : Type where
  key : Nat := 0
  depth : Nat := 0
  eval : Int := 0
  bound : Bound := .Exact
  move : Option Move := Option.none
deriving DecidableEq, Repr

instance : Inhabited TTEntry := ⟨{}⟩

/-- class TranspositionTable: a power-of-two sized flat array of entries
with a usage counter. The constructor chooses the largest power of two
whose entry array fits the configured megabyte size; the byte size of one
entry is implementation-defined, so the embedding carries the power-of-two
exponent directly. -/
structure TranspositionTable : Type where
  capacityLog : Nat
  usage : Nat
  entries : Nat → TTEntry

namespace TranspositionTable

/-- TranspositionTable::capacity(). -/
def capacity (tt : TranspositionTable) : Nat := 2 ^ tt.capacityLog

/-- The TranspositionTable constructor: all entries value-initialised to
the zero entry, usage zero. -/
def fresh (capacityLog : Nat) : TranspositionTable :=
  ⟨capacityLog, 0, fun _ => default⟩

/-- TranspositionTable::probe(key): the entry at slot key & (capacity - 1)
when its key matches exactly, otherwise none (the C++ null pointer). -/
def probe (tt : TranspositionTable) (key : Nat) : Option TTEntry :=
  let e := tt.entries (key &&& (tt.capacity - 1))
  if e.key = key then some e else Option.none

/-- TranspositionTable::store: depth-preferred replacement; the usage
counter is incremented when the replaced slot held the zero key. -/
def store (tt : TranspositionTable) (key : Nat) (depth : Nat) (eval : Int)
    (bound : Bound) (move : Option Move) : TranspositionTable :=
  let index := key &&& (tt.capacity - 1)
  let e := tt.entries index
  if depth ≥ e.depth then
    { tt with
      usage := tt.usage + (if e.key = 0 then 1 else 0),
      entries := fun i =>
        if i = index then ⟨key, depth, eval, bound, move⟩ else tt.entries i }
  else tt

/-- TranspositionTable::set_size_mb: throws std::invalid_argument (none)
outside [TT_MIN_SIZE_MB, TT_MAX_SIZE_MB], otherwise stores and returns the
requested size. -/
def set_size_mb (size_mb : Nat) : Option Nat :=
  if size_mb < TT_MIN_SIZE_MB ∨ size_mb > TT_MAX_SIZE_MB then Option.none
  else some size_mb

end TranspositionTable

/-- The local transposition table constructed at the start of every
search::search invocation (`TranspositionTable tt;` in the iterative
deepening entry point): a freshly zeroed table. -/
def searchEntryTT (capacityLog : Nat) : TranspositionTable :=
  TranspositionTable.fresh capacityLog

/-- class KillerMoves: two quiet-move slots per ply. -/
structure KillerMoves : Type where
  moves : Nat → Option Move × Option Move

namespace KillerMoves

/-- The KillerMoves constructor: all slots empty. -/
def init : KillerMoves := ⟨fun _ => (Option.none, Option.none)⟩

/-- KillerMoves::probe(ply, index). -/
def probe (k : KillerMoves) (ply index : Nat) : Option Move :=
  if index ≥ 2 then Option.none
  else if index = 0 then (k.moves ply).1
  else (k.moves ply).2

/-- KillerMoves::store(ply, mv): shift the older killer to slot 1 unless
the new move equals slot 0 (move equality ignores the captured piece). -/
def store (k : KillerMoves) (ply : Nat) (mv : Move) : KillerMoves :=
  let slot := k.moves ply
  let differs := match slot.1 with
    | some s0 => !(mv.beqSrc s0)
    | Option.none => true
  if differs then
    ⟨fun p => if p = ply then (some mv, slot.1) else k.moves p⟩
  else k

end KillerMoves

/-- struct Report. The wall-clock start field is not representable in a
pure embedding and is omitted; the elapsed-time comparison it feeds is
abstracted in the Stopper. -/
structure Report : Type where
  depth : Nat := 0
  ply : Nat := 0
  nodes : Nat := 0
  pv : Option (List Move × Int) := Option.none
  tt_stats : Nat × Nat := (0, 0)

/-- class Stopper. The atomic stop flag is modelled by the boolean value it
holds during the run, and the wall-clock comparison elapsed() > limit by
the boolean oracle elapsed_over (real time is outside the embedding). -/
structure Stopper : Type where
  stop_signal : Bool := false
  depth_limit : Option Nat := Option.none
  elapsed_over : Bool := false
  nodes_limit : Option Nat := Option.none

/-- Stopper::should_stop(report): the stop flag always; time and node
limits only on every 256th node. -/
def Stopper.should_stop (s : Stopper) (r : Report) : Bool :=
  if s.stop_signal then true
  else if r.nodes &&& 255 ≠ 0 then false
  else if s.stop_signal then true
  else if s.elapsed_over then true
  else
    match s.nodes_limit with
    | some n => r.nodes > n
    | Option.none => false

/-- eval_in(eval, ply): mate-score normalisation towards
distance-from-node on store. -/
def eval_in (e : Int) (ply : Nat) : Int :=
  if e ≥ CENTIPAWN_MATE_THRESHOLD then e + ply
  else if e ≤ -CENTIPAWN_MATE_THRESHOLD then e - ply
  else e

/-- eval_out(eval, ply): mate-score normalisation back to
distance-from-root on retrieval. -/
def eval_out (e : Int) (ply : Nat) : Int :=
  if e ≥ CENTIPAWN_MATE_THRESHOLD then e - ply
  else if e ≤ -CENTIPAWN_MATE_THRESHOLD then e + ply
  else e

/-- has_non_pawn_material(board, colour). -/
def has_non_pawn_material (b : Board) (c : Colour) : Bool :=
  b.countPieces (knight c) + b.countPieces (bishop c) +
  b.countPieces (rook c) + b.countPieces (queen c) > 0

/-- FUTILITY_MARGIN for depths 0, 1, 2. -/
def FUTILITY_MARGIN (d : Nat) : Int :=
  if d = 1 then 100 else if d = 2 then 300 else 0

/-- capture_priority_score(mv): negated MVV-LVA for captures (so that an
ascending sort searches the best capture first), 1 for a promotion without
capture, 0 otherwise. -/
def capture_priority_score (mv : Move) : Int :=
  match mv.captured_piece with
  | some cp => -(PIECE_VALUES cp * 100 - PIECE_VALUES mv.piece)
  | Option.none => if mv.promotion_piece.isSome then 1 else 0

/-- The score function of the detail::order_moves comparator: captures by
capture_priority_score, then promotions, then the two killers, then quiet
moves. -/
def orderMovesScore (k1 k2 : Option Move) (mv : Move) : Int :=
  if mv.captured_piece.isSome then capture_priority_score mv
  else if mv.promotion_piece.isSome then 1
  else if (match k1 with | some k => mv.beqSrc k | Option.none => false) then 2
  else if (match k2 with | some k => mv.beqSrc k | Option.none => false) then 3
  else 4

/-- The score function of the detail::order_quiescence_moves comparator:
negated victim*100 - lva, where the victim of a non-capture defaults to
the mover's own pawn and the attacker of a promotion is the promotion
piece. -/
def quiescencePriorityScore (mv : Move) : Int :=
  let victim := mv.captured_piece.getD (pawn (pieceColour mv.piece))
  let lva := mv.promotion_piece.getD mv.piece
  Neg.neg (PIECE_VALUES victim * 100 - PIECE_VALUES lva)

/-- Insert a move into a list sorted by ascending score. -/
def insertByScore (score : Move → Int) (mv : Move) : List Move → List Move
  | [] => [mv]
  | x :: xs =>
    if score mv ≤ score x then mv :: x :: xs
    else x :: insertByScore score mv xs

/-- Sort a move list by ascending score (std::ranges::sort with the
comparator score a < score b; the C++ sort is unstable, so any order
consistent with the comparator is a faithful model). -/
def sortByScore (score : Move → Int) (l : List Move) : List Move :=
  l.foldr (insertByScore score) []

/-- detail::order_moves(moves, killers, ply). -/
def order_moves (moves : List Move) (killers : KillerMoves) (ply : Nat) :
    List Move :=
  sortByScore (orderMovesScore (killers.probe ply 0) (killers.probe ply 1)) moves

/-- detail::order_quiescence_moves(moves). -/
def order_quiescence_moves (moves : List Move) : List Move :=
  sortByScore quiescencePriorityScore moves

-- ---------------------------------------------------------------------------
-- Quiescence and alpha-beta (src/search.cpp)
-- ---------------------------------------------------------------------------

/-- quiescence(pos, alpha, beta, report): stand-pat static evaluation with
a capture-only search below it. The C++ recursion terminates because
captures run out; the embedding makes this explicit with a fuel argument
(returning alpha when the fuel, never exhausted in real use, runs out).
The mutated position (restored on exit) and report are threaded through. -/
def quiescence : Nat → Position → Int → Int → Report → Int × Position × Report
  | 0, pos, alpha, _, report => (alpha, pos, report)
  | fuel + 1, pos, alpha, beta, report =>
    let report := { report with nodes := report.nodes + 1 }
    let standPat := eval pos
    if standPat ≥ beta then (beta, pos, report)
    else
      let alpha := max alpha standPat
      let c := pos.colour_to_move
      let moves := order_quiescence_moves (pseudoLegalNoisyMoves pos)
      let final := moves.foldl
        (fun (st : Option Int × Int × Position × Report) mv =>
          match st with
          | (some r, a, pos, report) => (some r, a, pos, report)
          | (Option.none, a, pos, report) =>
            let pos := pos.makeMove mv
            if is_in_check c pos.board then
              (Option.none, a, pos.unmakeMove mv, report)
            else
              let q := quiescence fuel pos (-beta) (-a) report
              let score := -q.1
              let pos := q.2.1.unmakeMove mv
              let report := q.2.2
              if score ≥ beta then (some beta, a, pos, report)
              else (Option.none, max a score, pos, report))
        (Option.none, alpha, pos, report)
      match final with
      | (some r, _, pos, report) => (r, pos, report)
      | (Option.none, a, pos, report) => (a, pos, report)

/-- The result bundle of one alphabeta invocation: the returned score, the
final state of the out-parameter pv, and the final states of the mutated
position, transposition table, killer store and report. -/
structure ABState : Type where
  score : Int
  pv : List Move
  pos : Position
  tt : TranspositionTable
  killers : KillerMoves
  report : Report

/-- The type of the recursive search call threaded into the extracted
blocks of alphabeta (the stopper is captured). -/
abbrev ABSearch :=
  Position → Nat → Int → Int → List Move → TranspositionTable →
  KillerMoves → Report → ABState

/-- The transposition-table probe block of alphabeta: either an immediate
cutoff score (inl) or the remembered table move for ordering (inr). -/
def ttProbeOutcome (entry? : Option TTEntry) (depth : Nat) (alpha beta : Int)
    (ply : Nat) : Sum Int (Option Move) :=
  match entry? with
  | Option.none => .inr Option.none
  | some e =>
    if e.depth ≥ depth then
      let tte := eval_out e.eval ply
      match e.bound with
      | .Exact => .inl tte
      | .Lower => if tte ≥ beta then .inl beta else .inr e.move
      | .Upper => if tte ≤ alpha then .inl alpha else .inr e.move
    else .inr e.move

/-- The null-move pruning block of alphabeta, with the recursive search
call abstracted: when the preconditions hold, make a null move, search at
reduced depth with a zero window, unmake; a fail-high stores a lower bound
and returns beta (the some case). -/
def nullMoveStep (ab : ABSearch) (pos : Position) (depth : Nat) (beta : Int)
    (inCheck : Bool) (tt : TranspositionTable) (killers : KillerMoves)
    (report : Report) :
    Option Int × Position × TranspositionTable × KillerMoves × Report :=
  if depth ≥ 3 && !inCheck && has_non_pawn_material pos.board pos.colour_to_move
  then
    let pos := pos.makeNullMove
    let report := { report with ply := report.ply + 1 }
    let r : Nat := if depth > 6 then 3 else 2
    let res := ab pos (depth - r - 1) (-beta) (-beta + 1) [] tt killers report
    let nullEval := -res.score
    let report := { res.report with ply := res.report.ply - 1 }
    let pos := res.pos.unmakeNullMove
    if nullEval ≥ beta then
      let tt := res.tt.store pos.key depth (eval_in nullEval report.ply)
        .Lower Option.none
      (some beta, pos, tt, res.killers, report)
    else (Option.none, pos, res.tt, res.killers, report)
  else (Option.none, pos, tt, killers, report)

/-- The state carried through the move loop of alphabeta. -/
structure ABLoopState : Type where
  alpha : Int
  hasOne : Bool
  bound : Bound
  ttMove : Option Move
  pv : List Move
  pos : Position
  tt : TranspositionTable
  killers : KillerMoves
  report : Report
  done : Option Int

/-- The search of the remembered transposition-table move before the
generated list, with the recursive call abstracted: a fail-high stores a
lower bound and returns beta immediately (inl); otherwise the loop state
is initialised (inr). -/
def ttMoveStep (ab : ABSearch) (pos : Position) (depth : Nat)
    (alpha beta : Int) (pv0 : List Move) (ttMove0 : Option Move)
    (tt : TranspositionTable) (killers : KillerMoves) (report : Report) :
    Sum ABState ABLoopState :=
  match ttMove0 with
  | Option.none =>
    .inr ⟨alpha, false, .Upper, Option.none, pv0, pos, tt, killers, report,
          Option.none⟩
  | some m =>
    let pos1 := pos.makeMove m
    let report1 := { report with ply := report.ply + 1 }
    let res := ab pos1 (depth - 1) (-beta) (-alpha) [] tt killers report1
    let score := -res.score
    let report2 := { res.report with ply := res.report.ply - 1 }
    let pos2 := res.pos.unmakeMove m
    if score ≥ beta then
      let tt2 := res.tt.store pos2.key depth (eval_in score report2.ply)
        .Lower (some m)
      .inl ⟨beta, pv0, pos2, tt2, res.killers, report2⟩
    else if score > alpha then
      .inr ⟨score, true, .Exact, some m, m :: res.pv, pos2, res.tt,
            res.killers, report2, Option.none⟩
    else
      .inr ⟨alpha, true, .Upper, some m, pv0, pos2, res.tt, res.killers,
            report2, Option.none⟩

/-- The move loop of alphabeta, with the recursive call abstracted: skip
the table move, make each move, drop it if it leaves the own king in
check, apply futility pruning, search with a zero window after the first
searched move (re-searching on an improvement), and handle beta cutoffs
(killer and table stores) and alpha improvements (pv rebuild). -/
def abMoveLoop (ab : ABSearch) (c : Colour) (depth : Nat) (beta : Int)
    (inCheck : Bool) (staticEval : Int) :
    List Move → ABLoopState → ABLoopState
  | [], st => st
  | mv :: rest, st =>
    if st.done.isSome then st
    else if (match st.ttMove with
             | some t => mv.beqSrc t
             | Option.none => false) then
      abMoveLoop ab c depth beta inCheck staticEval rest st
    else
      let pos1 := st.pos.makeMove mv
      if is_in_check c pos1.board then
        abMoveLoop ab c depth beta inCheck staticEval rest
          { st with pos := pos1.unmakeMove mv }
      else if st.hasOne && depth ≤ 2 && !inCheck &&
              mv.captured_piece.isNone && mv.promotion_piece.isNone &&
              staticEval + FUTILITY_MARGIN depth ≤ st.alpha then
        abMoveLoop ab c depth beta inCheck staticEval rest
          { st with pos := pos1.unmakeMove mv }
      else
        let report1 := { st.report with ply := st.report.ply + 1 }
        let step : Int × List Move × Position × TranspositionTable ×
            KillerMoves × Report :=
          if st.hasOne then
            let r1 := ab pos1 (depth - 1) (-st.alpha - 1) (-st.alpha) []
              st.tt st.killers report1
            let s1 := -r1.score
            if s1 > st.alpha ∧ s1 < beta then
              let r2 := ab r1.pos (depth - 1) (-beta) (-st.alpha) [] r1.tt
                r1.killers r1.report
              (-r2.score, r2.pv, r2.pos, r2.tt, r2.killers, r2.report)
            else (s1, [], r1.pos, r1.tt, r1.killers, r1.report)
          else
            let r := ab pos1 (depth - 1) (-beta) (-st.alpha) [] st.tt
              st.killers report1
            (-r.score, r.pv, r.pos, r.tt, r.killers, r.report)
        let score := step.1
        let childPv := step.2.1
        let report2 := { step.2.2.2.2.2 with ply := step.2.2.2.2.2.ply - 1 }
        let pos2 := step.2.2.1.unmakeMove mv
        let tt2 := step.2.2.2.1
        let killers2 := step.2.2.2.2.1
        if score ≥ beta then
          let killers3 :=
            if mv.captured_piece.isNone && mv.promotion_piece.isNone then
              killers2.store report2.ply mv
            else killers2
          let tt3 := tt2.store pos2.key depth (eval_in score report2.ply)
            .Lower (some mv)
          { st with done := some beta, pos := pos2, tt := tt3,
                    killers := killers3, report := report2 }
        else if score > st.alpha then
          abMoveLoop ab c depth beta inCheck staticEval rest
            ⟨score, true, .Exact, some mv, mv :: childPv, pos2, tt2,
             killers2, report2, Option.none⟩
        else
          abMoveLoop ab c depth beta inCheck staticEval rest
            { st with hasOne := true, pos := pos2, tt := tt2,
                      killers := killers2, report := report2 }

/-- detail::alphabeta, translated block by block from src/search.cpp with
a fuel argument standing for the (finite) recursion of the C++ search:
stop check, draw check, leaf/quiescence with check extension, table probe,
null-move pruning, table-move search, ordered move loop, and the terminal
mate/stalemate score. Out of fuel (never reached in real use) the score is
0 with all state unchanged. -/
def alphabeta : Nat → Position → Nat → Int → Int → List Move →
    TranspositionTable → KillerMoves → Report → Stopper → ABState
  | 0, pos, _, _, _, pv0, tt, killers, report, _ =>
    ⟨0, pv0, pos, tt, killers, report⟩
  | fuel + 1, pos, depth, alpha, beta, pv0, tt, killers, report, stopper =>
    if stopper.should_stop report then ⟨0, pv0, pos, tt, killers, report⟩
    else if pos.isFiftyMoveDraw || pos.isRepetitionDraw report.ply then
      ⟨CENTIPAWN_DRAW, pv0, pos, tt, killers, report⟩
    else if depth = 0 && !is_in_check pos.colour_to_move pos.board then
      let q := quiescence fuel pos alpha beta report
      ⟨q.1, pv0, q.2.1, tt, killers, q.2.2⟩
    else
      let depth := if depth = 0 then 1 else depth
      let ab : ABSearch := fun pos depth alpha beta pv tt killers report =>
        alphabeta fuel pos depth alpha beta pv tt killers report stopper
      match ttProbeOutcome (tt.probe pos.key) depth alpha beta report.ply with
      | .inl s => ⟨s, pv0, pos, tt, killers, report⟩
      | .inr ttMove0 =>
        let report := { report with nodes := report.nodes + 1 }
        let c := pos.colour_to_move
        let inCheck := is_in_check c pos.board
        let nm := nullMoveStep ab pos depth beta inCheck tt killers report
        match nm.1 with
        | some s => ⟨s, pv0, nm.2.1, nm.2.2.1, nm.2.2.2.1, nm.2.2.2.2⟩
        | Option.none =>
          let pos := nm.2.1
          let tt := nm.2.2.1
          let killers := nm.2.2.2.1
          let report := nm.2.2.2.2
          match ttMoveStep ab pos depth alpha beta pv0 ttMove0 tt killers
            report with
          | .inl res => res
          | .inr st0 =>
            let staticEval :=
              if depth ≤ 2 && !inCheck then eval st0.pos else 0
            let moves :=
              order_moves (pseudoLegalMoves st0.pos) st0.killers
                st0.report.ply
            let st := abMoveLoop ab c depth beta inCheck staticEval moves st0
            match st.done with
            | some s => ⟨s, st.pv, st.pos, st.tt, st.killers, st.report⟩
            | Option.none =>
              if !st.hasOne then
                ⟨if inCheck then -CENTIPAWN_MATE + (st.report.ply : Int)
                 else CENTIPAWN_DRAW,
                 st.pv, st.pos, st.tt, st.killers, st.report⟩
              else
                let tt := st.tt.store st.pos.key depth
                  (eval_in st.alpha st.report.ply) st.bound st.ttMove
                ⟨st.alpha, st.pv, st.pos, tt, st.killers, st.report⟩

-- ---------------------------------------------------------------------------
-- Search results and the engine façade (include/c3/search.hpp,
-- include/c3/engine.hpp, src/engine.cpp)
-- ---------------------------------------------------------------------------

/-- struct SearchResult. -/
structure SearchResult : Type where
  depth : Nat := 0
  eval : Int := 0
  pv : List Move := []
  nodes : Nat := 0
  hashfull : Nat := 0

/-- The standard starting array as (piece, square) pairs, rank 1 and 2
then rank 7 and 8. -/
def startSetup : List (Piece × Nat) :=
  [(.WR, 0), (.WN, 1), (.WB, 2), (.WQ, 3), (.WK, 4), (.WB, 5), (.WN, 6),
   (.WR, 7),
   (.WP, 8), (.WP, 9), (.WP, 10), (.WP, 11), (.WP, 12), (.WP, 13),
   (.WP, 14), (.WP, 15),
   (.BP, 48), (.BP, 49), (.BP, 50), (.BP, 51), (.BP, 52), (.BP, 53),
   (.BP, 54), (.BP, 55),
   (.BR, 56), (.BN, 57), (.BB, 58), (.BQ, 59), (.BK, 60), (.BB, 61),
   (.BN, 62), (.BR, 63)]

/-- The board described by START_POS_FEN
(rnbqkbnr/pppppppp/8/8/8/8/PPPPPPPP/RNBQKBNR), built by put_piece as the
FEN parser does. -/
def startBoard : Board :=
  startSetup.foldl (fun b ps => b.putPiece ps.1 ps.2) Board.empty

/-- Position::startpos(): the starting position, White to move, all
castling rights, no en passant, clocks 0 and 1. -/
def startpos : Position :=
  Position.fromParts startBoard .White CastlingRights.all Option.none 0 1

/-- A classic stalemate test position: White Kb6 and Qc7 against the lone
Black Ka8, Black to move with no legal move and not in check. -/
def stalematePos : Position :=
  Position.fromParts
    (((Board.empty.putPiece .WK 41).putPiece .WQ 50).putPiece .BK 56)
    .Black CastlingRights.none Option.none 0 1

/-- A stalemate position with non-pawn material on both sides: White Bc3,
Qb3, Kh6 against Black Kh8 and Ng7; Black to move, not in check, the
knight pinned on the long diagonal and every king move covered, so no
legal move exists while null-move pruning's material precondition holds. -/
def pinStalematePos : Position :=
  Position.fromParts
    (((((Board.empty.putPiece .WB 18).putPiece .WQ 17).putPiece
      .WK 47).putPiece .BK 63).putPiece .BN 54)
    .Black CastlingRights.none Option.none 0 1

/-- class Engine: owns the current position. The engine also declares a
TranspositionTable member, but no code path reads or writes it (see the
theorems on the search-local table). -/
structure Engine : Type where
  pos : Position

namespace Engine

/-- The Engine constructor: the starting position. -/
def init : Engine := ⟨startpos⟩

/-- Engine::new_game(). -/
def new_game (_e : Engine) : Engine := ⟨startpos⟩

/-- Engine::set_position(pos). -/
def set_position (_e : Engine) (pos : Position) : Engine := ⟨pos⟩

/-- Engine::apply_move(mv). -/
def apply_move (e : Engine) (mv : Move) : Engine := ⟨e.pos.makeMove mv⟩

/-- Engine::apply_moves(moves). -/
def apply_moves (e : Engine) (moves : List Move) : Engine :=
  ⟨moves.foldl Position.makeMove e.pos⟩

/-- Engine::search(limits, reporter, stop_signal): copies the stored
position and hands the copy to search::search, which mutates only the
copy. The search routine (with its limits, reporter and stop signal
already applied) is abstracted as a function from the position to the
result and the final state of its position argument; the mutated copy is
discarded. -/
def search (e : Engine) (searchFn : Position → SearchResult × Position) :
    SearchResult × Engine :=
  let posCopy := e.pos
  let r := searchFn posCopy
  (r.1, e)

/-- Engine::set_hash_size_mb(size): delegates to
TranspositionTable::set_size_mb. -/
def set_hash_size_mb (_e : Engine) (size_mb : Nat) : Option Nat :=
  TranspositionTable.set_size_mb size_mb

end Engine

-- ---------------------------------------------------------------------------
-- Concrete data for the repetition-draw scenario
-- ---------------------------------------------------------------------------

/-- The eight-ply knight dance Ng1-f3, Ng8-f6, Nf3-g1, Nf6-g8 played
twice. -/
def knightDance : List Move :=
  [⟨.WN, 6, 21, Option.none, Option.none, false⟩,
   ⟨.BN, 62, 45, Option.none, Option.none, false⟩,
   ⟨.WN, 21, 6, Option.none, Option.none, false⟩,
   ⟨.BN, 45, 62, Option.none, Option.none, false⟩,
   ⟨.WN, 6, 21, Option.none, Option.none, false⟩,
   ⟨.BN, 62, 45, Option.none, Option.none, false⟩,
   ⟨.WN, 21, 6, Option.none, Option.none, false⟩,
   ⟨.BN, 45, 62, Option.none, Option.none, false⟩]

/-- The position after the first n plies of the knight dance. -/
def danceState (n : Nat) : Position :=
  (knightDance.take n).foldl Position.makeMove startpos

-- ---------------------------------------------------------------------------
-- Literal transcriptions of spec sentences, for comparison with the code
-- ---------------------------------------------------------------------------

/-- The spec's set-hash-size contract, transcribed for comparison: the
requested megabyte size clamped to [1, 4096]. -/
def specSetHashSize (n : Nat) : Nat := min 4096 (max 1 n)

/-- The spec's move-ordering score, transcribed for comparison: captures
and promotions score victim_value * 100 - attacker_value, with higher
scores searched first; a promotion without a capture takes the promotion
piece's value as the victim. -/
def specMvvLvaScore (mv : Move) : Option Int :=
  match mv.captured_piece with
  | some cp => some (PIECE_VALUES cp * 100 - PIECE_VALUES mv.piece)
  | Option.none =>
    match mv.promotion_piece with
    | some pp => some (PIECE_VALUES pp * 100 - PIECE_VALUES mv.piece)
    | Option.none => Option.none

-- ---------------------------------------------------------------------------
-- Proof-support definitions: xor folds, mailbox keys, invariants
-- ---------------------------------------------------------------------------

/-- Fold a xor of f over a list. -/
def listXor {α : Type} (l : List α) (f : α → Nat) : Nat :=
  l.foldl (fun a i => a ^^^ f i) 0

/-- The Zobrist contribution of one mailbox slot. -/
def squareTerm (b : Board) (i : Nat) : Nat :=
  match b.pieceAt i with
  | some p => zobPieceSquare p i
  | Option.none => 0

/-- The piece key read off the mailbox instead of the bitboards. -/
def mailboxKey (b : Board) : Nat := listXor (List.range 64) (squareTerm b)

/-- The side-to-move contribution to the key. -/
def sideKey (c : Colour) : Nat :=
  if c = .Black then zobColourToMove else 0

/-- The en passant contribution to the key. -/
def epTerm (ep : Option Square) (c : Colour) (b : Board) : Nat :=
  match ep with
  | some e =>
    if en_passant_sources e c b ≠ 0 then zobEnPassantFile (Sq.file e) else 0
  | Option.none => 0

/-- Whether a mailbox slot holds a piece of the given colour. -/
def colourAtB (o : Option Piece) (c : Colour) : Bool :=
  match o with
  | some p => pieceColour p = c
  | Option.none => false

/-- The Board representation invariant as a proposition (the Prop form of
Board.invB): bitboards are 64-bit and agree pointwise with the mailbox. -/
def Board.Inv (b : Board) : Prop :=
  (∀ p, b.pieces p < two64) ∧ (∀ c, b.colours c < two64) ∧
  (∀ p i, (b.pieces p).testBit i = decide (b.pieceAt i = some p)) ∧
  (∀ c i, (b.colours c).testBit i = colourAtB (b.pieceAt i) c)

/-- Position well-formedness as a proposition (the Prop form of
Position.wfB). -/
def Position.Wf (pos : Position) : Prop :=
  pos.board.Inv ∧ pos.castling_rights.mask < 16 ∧
  pos.half_move_clock < 256 ∧ pos.full_move_counter < 256 ∧
  pos.key = pos.computeKey

/-- The total restriction of remove_for_square to the four corner squares
(the identity elsewhere); on corners it agrees with remove_for_square. -/
def removeForSquareTotal (cr : CastlingRights) (s : Square) : CastlingRights :=
  if s = 0 then cr.removeBit 2
  else if s = 7 then cr.removeBit 1
  else if s = 56 then cr.removeBit 8
  else if s = 63 then cr.removeBit 4
  else cr

/-- The unconditional corner-square castling-rights updates at the end of
make_move: remove for the from square, then for the to square, each under
its is_corner guard. -/
def cornerChain (cr : CastlingRights) (s t : Square) : CastlingRights :=
  if Sq.isCorner t then
    removeForSquareTotal
      (if Sq.isCorner s then removeForSquareTotal cr s else cr) t
  else if Sq.isCorner s then removeForSquareTotal cr s
  else cr

/-- make_move with the corner-guarded remove_for_square calls replaced by
their total restriction: equal to makeMove on every input (the guards keep
the throwing branch unreachable), and free of the Option plumbing. -/
def Position.makeMoveT (pos : Position) (mv : Move) : Position :=
  let hist : HistoryEntry :=
    ⟨pos.castling_rights, pos.en_passant_square, pos.half_move_clock, pos.key⟩
  let history := hist :: pos.history
  let key :=
    match pos.en_passant_square with
    | some e =>
      if en_passant_sources e pos.colour_to_move pos.board ≠ 0 then
        pos.key ^^^ zobEnPassantFile (Sq.file e)
      else pos.key
    | Option.none => pos.key
  let half := (pos.half_move_clock + 1) % 256
  let step1 : Board × Nat × Nat :=
    match mv.captured_piece with
    | some cp =>
      let cs := if mv.is_en_passant then Sq.advance mv.to_sq (pieceColour cp)
                else mv.to_sq
      (pos.board.removePiece cs, key ^^^ zobPieceSquare cp cs, 0)
    | Option.none => (pos.board, key, half)
  let board := step1.1
  let key := step1.2.1
  let half := step1.2.2
  let step2 : Option Square × Nat × Nat :=
    if isPawn mv.piece then
      if mv.rankDiff = 2 then
        let sq := Sq.advance mv.from_sq pos.colour_to_move
        let key' :=
          if en_passant_sources sq (Colour.not pos.colour_to_move) board ≠ 0 then
            key ^^^ zobEnPassantFile (Sq.file sq)
          else key
        (some sq, key', 0)
      else (Option.none, key, 0)
    else (Option.none, key, half)
  let ep := step2.1
  let key := step2.2.1
  let half := step2.2.2
  let step3 : CastlingRights × Board × Nat :=
    if isKing mv.piece then
      let cr := pos.castling_rights.removeForColour pos.colour_to_move
      if mv.isCastling then
        let rookP := rook pos.colour_to_move
        if mv.to_sq = 2 ∨ mv.to_sq = 58 then
          let rookTo := squareOf 3 (Sq.rank mv.to_sq)
          let rookFrom := squareOf 0 (Sq.rank mv.to_sq)
          (cr, (board.putPiece rookP rookTo).removePiece rookFrom,
           key ^^^ zobPieceSquare rookP rookTo ^^^ zobPieceSquare rookP rookFrom)
        else if mv.to_sq = 6 ∨ mv.to_sq = 62 then
          let rookTo := squareOf 5 (Sq.rank mv.to_sq)
          let rookFrom := squareOf 7 (Sq.rank mv.to_sq)
          (cr, (board.putPiece rookP rookTo).removePiece rookFrom,
           key ^^^ zobPieceSquare rookP rookTo ^^^ zobPieceSquare rookP rookFrom)
        else (cr, board, key)
      else (cr, board, key)
    else (pos.castling_rights, board, key)
  let cr := step3.1
  let board := step3.2.1
  let key := step3.2.2
  let cr := if Sq.isCorner mv.from_sq then removeForSquareTotal cr mv.from_sq
            else cr
  let cr := if Sq.isCorner mv.to_sq then removeForSquareTotal cr mv.to_sq
            else cr
  let key := (key ^^^ zobCastlingRights cr.value) ^^^
             zobCastlingRights pos.castling_rights.value
  let toPiece := mv.promotion_piece.getD mv.piece
  let board := (board.putPiece toPiece mv.to_sq).removePiece mv.from_sq
  let key := (key ^^^ zobPieceSquare toPiece mv.to_sq) ^^^
             zobPieceSquare mv.piece mv.from_sq
  let full :=
    if pos.colour_to_move = .Black then (pos.full_move_counter + 1) % 256
    else pos.full_move_counter
  { board, colour_to_move := Colour.not pos.colour_to_move,
    castling_rights := cr, en_passant_square := ep,
    half_move_clock := half, full_move_counter := full,
    key := key ^^^ zobColourToMove, history }

/-- The invariant tying a replay position to the stack of outstanding
makes: the state is a chain of well-formed coherent makes (and null makes)
above a well-formed base. -/
def StackOk : Position → List (Option Move) → Prop
  | pos, [] => pos.Wf
  | pos, some m :: st =>
    ∃ q, StackOk q st ∧ m.okB q = true ∧ pos = q.makeMove m
  | pos, Option.none :: st =>
    ∃ q, StackOk q st ∧ pos = q.makeNullMove

-- ===========================================================================
-- Theorems
-- ===========================================================================

-- ---------------------------------------------------------------------------
-- Bit-level lemmas
-- ---------------------------------------------------------------------------

lemma two64_eq : two64 = 2 ^ 64 := by norm_num [two64]

lemma Sq.bb_eq (s : Nat) : Sq.bb s = 2 ^ s % 2 ^ 64 := by
  simp [Sq.bb, shl64, Nat.shiftLeft_eq, two64_eq]

lemma Sq.bb_testBit (s i : Nat) :
    (Sq.bb s).testBit i = (decide (i < 64) && decide (s = i)) := by
  rw [Sq.bb_eq, Nat.testBit_mod_two_pow, Nat.testBit_two_pow]

lemma Sq.bb_lt (s : Nat) : Sq.bb s < two64 := by
  rw [Sq.bb_eq, two64_eq]
  exact Nat.mod_lt _ (by norm_num)

lemma CORNERS_eq : CORNERS = 2 ^ 0 ||| 2 ^ 7 ||| 2 ^ 56 ||| 2 ^ 63 := by decide

lemma isCorner_iff (s : Nat) :
    Sq.isCorner s = true ↔ s = 0 ∨ s = 7 ∨ s = 56 ∨ s = 63 := by
  constructor
  · intro h
    simp only [Sq.isCorner, ne_eq, decide_eq_true_eq] at h
    obtain ⟨i, hi⟩ := Nat.ne_zero_implies_bit_true h
    rw [Nat.testBit_and, Sq.bb_testBit, CORNERS_eq] at hi
    simp only [Nat.testBit_or, Nat.testBit_two_pow] at hi
    rcases Bool.and_eq_true_iff.mp hi with ⟨h1, h2⟩
    rcases Bool.and_eq_true_iff.mp h1 with ⟨_, hsi⟩
    have hs : s = i := of_decide_eq_true hsi
    subst hs
    simp only [Bool.or_eq_true, decide_eq_true_eq] at h2
    omega
  · rintro (rfl | rfl | rfl | rfl) <;> decide

lemma removeForSquare_of_corner (cr : CastlingRights) (s : Square)
    (h : s = 0 ∨ s = 7 ∨ s = 56 ∨ s = 63) :
    ∃ cr', cr.removeForSquare s = some cr' := by
  rcases h with rfl | rfl | rfl | rfl <;>
    exact ⟨_, rfl⟩

lemma cornerStep_isSome (cr : CastlingRights) (s t : Square)
    (k : CastlingRights → Position) :
    ((if Sq.isCorner s then cr.removeForSquare s else some cr).bind fun cr1 =>
     (if Sq.isCorner t then cr1.removeForSquare t else some cr1).bind fun cr2 =>
     some (k cr2)).isSome = true := by
  have step : ∀ (c : CastlingRights) (u : Square),
      ∃ c', (if Sq.isCorner u then c.removeForSquare u else some c) = some c' := by
    intro c u
    by_cases h : Sq.isCorner u
    · obtain ⟨c', hc⟩ := removeForSquare_of_corner c u ((isCorner_iff u).mp h)
      exact ⟨c', by simp [h, hc]⟩
    · exact ⟨c, by simp [h]⟩
  obtain ⟨c1, h1⟩ := step cr s
  obtain ⟨c2, h2⟩ := step c1 t
  rw [h1]
  simp [h2]

-- ---------------------------------------------------------------------------
-- Xor-fold lemmas
-- ---------------------------------------------------------------------------

lemma xor_left_comm (a b c : Nat) : a ^^^ (b ^^^ c) = b ^^^ (a ^^^ c) := by
  rw [← Nat.xor_assoc, Nat.xor_comm a b, Nat.xor_assoc]

lemma listXor_nil {α : Type} (f : α → Nat) : listXor ([] : List α) f = 0 := rfl

lemma foldl_xor_shift {α : Type} (l : List α) (f : α → Nat) (a : Nat) :
    l.foldl (fun x i => x ^^^ f i) a = a ^^^ listXor l f := by
  induction l generalizing a with
  | nil => simp [listXor]
  | cons x xs ih =>
    show xs.foldl _ (a ^^^ f x) = _
    rw [ih]
    have : listXor (x :: xs) f = (0 ^^^ f x) ^^^ listXor xs f := by
      show xs.foldl _ (0 ^^^ f x) = _
      rw [ih]
    rw [this]
    simp [Nat.xor_assoc]

lemma listXor_cons {α : Type} (f : α → Nat) (x : α) (l : List α) :
    listXor (x :: l) f = f x ^^^ listXor l f := by
  show l.foldl _ (0 ^^^ f x) = _
  rw [foldl_xor_shift]
  simp

lemma listXor_congr {α : Type} {l : List α} {f g : α → Nat}
    (h : ∀ x ∈ l, f x = g x) : listXor l f = listXor l g := by
  induction l with
  | nil => rfl
  | cons x xs ih =>
    rw [listXor_cons, listXor_cons, h x (by simp),
      ih fun y hy => h y (by simp [hy])]

lemma listXor_zero {α : Type} (l : List α) : listXor l (fun _ => 0) = 0 := by
  induction l with
  | nil => rfl
  | cons x xs ih => rw [listXor_cons, ih]; rfl

lemma listXor_xor {α : Type} (l : List α) (f g : α → Nat) :
    listXor l (fun x => f x ^^^ g x) = listXor l f ^^^ listXor l g := by
  induction l with
  | nil => simp [listXor_nil]
  | cons x xs ih =>
    rw [listXor_cons, listXor_cons, listXor_cons, ih]
    simp [Nat.xor_assoc, Nat.xor_comm, xor_left_comm]

lemma listXor_swap {α β : Type} (l : List α) (l' : List β) (g : α → β → Nat) :
    listXor l (fun a => listXor l' (g a)) =
      listXor l' (fun b => listXor l (fun a => g a b)) := by
  induction l with
  | nil => simp [listXor_nil, listXor_zero]
  | cons x xs ih =>
    rw [listXor_cons, ih, ← listXor_xor]
    exact listXor_congr fun b _ => (listXor_cons (fun a => g a b) x xs).symm

lemma listXor_update {α : Type} [DecidableEq α] {l : List α} {s : α}
    {f f' : α → Nat} (hs : s ∈ l) (hnd : l.Nodup)
    (hoff : ∀ x ∈ l, x ≠ s → f' x = f x) :
    listXor l f' = (listXor l f ^^^ f s) ^^^ f' s := by
  induction l with
  | nil => cases hs
  | cons x xs ih =>
    rcases List.mem_cons.mp hs with rfl | hmem
    · have hnot : s ∉ xs := (List.nodup_cons.mp hnd).1
      have heq : listXor xs f' = listXor xs f :=
        listXor_congr fun y hy =>
          hoff y (List.mem_cons_of_mem _ hy) (fun h => hnot (h ▸ hy))
      rw [listXor_cons, listXor_cons, heq]
      simp [Nat.xor_assoc, Nat.xor_comm, xor_left_comm, Nat.xor_cancel_left,
        Nat.xor_self]
    · have hxs : x ≠ s := fun h => (List.nodup_cons.mp hnd).1 (h ▸ hmem)
      have ih' := ih hmem (List.nodup_cons.mp hnd).2
        (fun y hy hne => hoff y (List.mem_cons_of_mem _ hy) hne)
      rw [listXor_cons, listXor_cons, hoff x (by simp) hxs, ih']
      simp [Nat.xor_assoc, Nat.xor_comm, xor_left_comm]

lemma listXor_filter {l : List Nat} (q : Nat → Bool) (f : Nat → Nat) :
    listXor (l.filter q) f = listXor l (fun i => if q i then f i else 0) := by
  induction l with
  | nil => rfl
  | cons x xs ih =>
    by_cases hq : q x
    · rw [List.filter_cons_of_pos hq, listXor_cons, listXor_cons, ih, if_pos hq]
    · rw [List.filter_cons_of_neg hq, listXor_cons, ih,
        if_neg hq, Nat.zero_xor]

-- ---------------------------------------------------------------------------
-- Board operation lemmas
-- ---------------------------------------------------------------------------

lemma mask64_eq : mask64 = 2 ^ 64 - 1 := by norm_num [mask64]

lemma mask64_testBit (i : Nat) : mask64.testBit i = decide (i < 64) := by
  rw [mask64_eq, Nat.testBit_two_pow_sub_one]

lemma compl64_testBit (x i : Nat) :
    (compl64 x).testBit i = (decide (i < 64) ^^ x.testBit i) := by
  rw [compl64, Nat.testBit_xor, mask64_testBit]

lemma testBit_ge_64 {bb : Nat} (h : bb < two64) {i : Nat} (hi : 64 ≤ i) :
    bb.testBit i = false := by
  refine Nat.testBit_lt_two_pow (lt_of_lt_of_le (two64_eq ▸ h) ?_)
  exact Nat.pow_le_pow_right (by norm_num) hi

lemma Board.pieceAt_lt {b : Board} {s : Nat} {p : Piece}
    (h : b.pieceAt s = some p) : s < 64 := by
  by_contra hs
  simp [Board.pieceAt, hs] at h

lemma Board.pieceAt_putPiece (b : Board) (p : Piece) {s : Nat} (hs : s < 64)
    (i : Nat) :
    (b.putPiece p s).pieceAt i = if i = s then some p else b.pieceAt i := by
  unfold Board.putPiece Board.pieceAt
  by_cases hi : i < 64
  · simp [hs, hi]
  · have : i ≠ s := by omega
    simp [hs, hi, this]

lemma Board.pieces_putPiece (b : Board) (p : Piece) {s : Nat} (hs : s < 64)
    (q : Piece) :
    (b.putPiece p s).pieces q =
      if q = p then b.pieces p ||| Sq.bb s else b.pieces q := by
  unfold Board.putPiece
  simp [hs]

lemma Board.colours_putPiece (b : Board) (p : Piece) {s : Nat} (hs : s < 64)
    (c : Colour) :
    (b.putPiece p s).colours c =
      if c = pieceColour p then b.colours c ||| Sq.bb s else b.colours c := by
  unfold Board.putPiece
  by_cases hc : c = pieceColour p <;> simp [hs, hc]

lemma Board.removePiece_of_none {b : Board} {s : Nat}
    (h : b.pieceAt s = Option.none) : b.removePiece s = b := by
  unfold Board.removePiece
  rw [h]

lemma Board.pieceAt_removePiece {b : Board} {s : Nat} {p : Piece}
    (h : b.pieceAt s = some p) (i : Nat) :
    (b.removePiece s).pieceAt i =
      if i = s then Option.none else b.pieceAt i := by
  have hs : s < 64 := Board.pieceAt_lt h
  unfold Board.removePiece
  rw [h]
  unfold Board.pieceAt
  by_cases hi : i < 64
  · simp [hi]
  · have : i ≠ s := by omega
    simp [hi, this]

lemma Board.pieces_removePiece {b : Board} {s : Nat} {p : Piece}
    (h : b.pieceAt s = some p) (q : Piece) :
    (b.removePiece s).pieces q =
      if q = p then b.pieces p &&& compl64 (Sq.bb s) else b.pieces q := by
  unfold Board.removePiece
  rw [h]

lemma Board.colours_removePiece {b : Board} {s : Nat} {p : Piece}
    (h : b.pieceAt s = some p) (c : Colour) :
    (b.removePiece s).colours c =
      if c = pieceColour p then b.colours c &&& compl64 (Sq.bb s)
      else b.colours c := by
  unfold Board.removePiece
  rw [h]

lemma Board.Inv.putPiece {b : Board} (hInv : b.Inv) (p : Piece) {s : Nat}
    (hs : s < 64) (he : b.pieceAt s = Option.none) : (b.putPiece p s).Inv := by
  obtain ⟨hb1, hb2, hb3, hb4⟩ := hInv
  have hterm : ∀ i : Nat, 64 ≤ i → b.pieceAt i = Option.none := by
    intro i hi
    unfold Board.pieceAt
    simp [Nat.not_lt.mpr hi]
  refine ⟨?_, ?_, ?_, ?_⟩
  · intro q
    rw [Board.pieces_putPiece b p hs]
    split_ifs
    · rw [two64_eq] at hb1 ⊢
      exact Nat.or_lt_two_pow (hb1 p) (two64_eq ▸ Sq.bb_lt s)
    · exact hb1 q
  · intro c
    rw [Board.colours_putPiece b p hs]
    split_ifs
    · rw [two64_eq] at hb2 ⊢
      exact Nat.or_lt_two_pow (hb2 c) (two64_eq ▸ Sq.bb_lt s)
    · exact hb2 c
  · intro q i
    rw [Board.pieces_putPiece b p hs, Board.pieceAt_putPiece b p hs]
    by_cases his : i = s
    · subst his
      by_cases hqp : q = p
      · subst hqp
        simp [Nat.testBit_or, Sq.bb_testBit, hs, hb3, he]
      · have hpq : ¬p = q := fun h => hqp h.symm
        simp [Nat.testBit_or, Sq.bb_testBit, hs, hqp, hb3, he, hpq]
    · have hsi : ¬s = i := fun h => his h.symm
      by_cases hqp : q = p
      · subst hqp
        simp [Nat.testBit_or, Sq.bb_testBit, his, hsi, hb3]
      · simp [hqp, his, hb3]
  · intro c i
    rw [Board.colours_putPiece b p hs, Board.pieceAt_putPiece b p hs]
    by_cases his : i = s
    · subst his
      by_cases hcp : c = pieceColour p
      · subst hcp
        simp [Nat.testBit_or, Sq.bb_testBit, hs, hb4, he, colourAtB]
      · have hpc : ¬pieceColour p = c := fun h => hcp h.symm
        simp [Nat.testBit_or, Sq.bb_testBit, hs, hcp, hb4, he, colourAtB, hpc]
    · have hsi : ¬s = i := fun h => his h.symm
      by_cases hcp : c = pieceColour p
      · subst hcp
        simp [Nat.testBit_or, Sq.bb_testBit, his, hsi, hb4]
      · simp [hcp, his, hb4]

lemma Board.Inv.removePiece {b : Board} (hInv : b.Inv) {s : Nat} {p : Piece}
    (h : b.pieceAt s = some p) : (b.removePiece s).Inv := by
  obtain ⟨hb1, hb2, hb3, hb4⟩ := hInv
  have hs : s < 64 := Board.pieceAt_lt h
  refine ⟨?_, ?_, ?_, ?_⟩
  · intro q
    rw [Board.pieces_removePiece h]
    split_ifs
    · exact lt_of_le_of_lt (Nat.and_le_left) (hb1 p)
    · exact hb1 q
  · intro c
    rw [Board.colours_removePiece h]
    split_ifs
    · exact lt_of_le_of_lt (Nat.and_le_left) (hb2 c)
    · exact hb2 c
  · intro q i
    rw [Board.pieces_removePiece h, Board.pieceAt_removePiece h]
    by_cases his : i = s
    · subst his
      by_cases hqp : q = p
      · subst hqp
        simp [Nat.testBit_and, compl64_testBit, Sq.bb_testBit, hs]
      · have hpq : ¬p = q := fun hc => hqp hc.symm
        simp [hqp, hb3, h, hpq]
    · have hsi : ¬s = i := fun hc => his hc.symm
      by_cases hqp : q = p
      · subst hqp
        by_cases hi : i < 64
        · simp [Nat.testBit_and, compl64_testBit, Sq.bb_testBit, his, hsi,
            hi, hb3]
        · have hbit : (b.pieces q).testBit i = false :=
            testBit_ge_64 (hb1 q) (by omega)
          have hnone : b.pieceAt i = Option.none := by
            unfold Board.pieceAt
            simp [hi]
          simp [Nat.testBit_and, compl64_testBit, Sq.bb_testBit, hi, hbit,
            hnone]
      · simp [hqp, his, hb3]
  · intro c i
    rw [Board.colours_removePiece h, Board.pieceAt_removePiece h]
    by_cases his : i = s
    · subst his
      by_cases hcp : c = pieceColour p
      · subst hcp
        simp [Nat.testBit_and, compl64_testBit, Sq.bb_testBit, hs, colourAtB]
      · have hpc : ¬pieceColour p = c := fun hc => hcp hc.symm
        simp [hcp, hb4, h, colourAtB, hpc]
    · have hsi : ¬s = i := fun hc => his hc.symm
      by_cases hcp : c = pieceColour p
      · subst hcp
        by_cases hi : i < 64
        · simp [Nat.testBit_and, compl64_testBit, Sq.bb_testBit, his, hsi,
            hi, hb4]
        · have hbit : (b.colours (pieceColour p)).testBit i = false :=
            testBit_ge_64 (hb2 _) (by omega)
          have hnone : b.pieceAt i = Option.none := by
            unfold Board.pieceAt
            simp [hi]
          simp [Nat.testBit_and, compl64_testBit, Sq.bb_testBit, hi, hbit,
            hnone, colourAtB]
      · simp [hcp, his, hb4]

-- ---------------------------------------------------------------------------
-- Mailbox keys and the bitboard/mailbox key agreement
-- ---------------------------------------------------------------------------

lemma mailboxKey_putPiece {b : Board} (p : Piece) {s : Nat} (hs : s < 64)
    (he : b.pieceAt s = Option.none) :
    mailboxKey (b.putPiece p s) = mailboxKey b ^^^ zobPieceSquare p s := by
  unfold mailboxKey
  rw [listXor_update (List.mem_range.mpr hs) (List.nodup_range 64)
    (fun i _ hne => by
      unfold squareTerm
      rw [Board.pieceAt_putPiece b p hs i, if_neg hne])]
  unfold squareTerm
  rw [Board.pieceAt_putPiece b p hs s, if_pos rfl, he]
  simp

lemma mailboxKey_removePiece {b : Board} {s : Nat} {p : Piece}
    (h : b.pieceAt s = some p) :
    mailboxKey (b.removePiece s) = mailboxKey b ^^^ zobPieceSquare p s := by
  have hs : s < 64 := Board.pieceAt_lt h
  unfold mailboxKey
  rw [listXor_update (List.mem_range.mpr hs) (List.nodup_range 64)
    (fun i _ hne => by
      unfold squareTerm
      rw [Board.pieceAt_removePiece h i, if_neg hne])]
  unfold squareTerm
  rw [Board.pieceAt_removePiece h s, if_pos rfl, h]
  simp

lemma piecesKey_foldl_aux (b : Board) (l : List Piece) (acc : Nat) :
    l.foldl (fun acc p =>
      (bitIndices (b.pieces p)).foldl
        (fun a i => a ^^^ zobPieceSquare p i) acc) acc =
    acc ^^^ listXor l (fun p => listXor (bitIndices (b.pieces p))
      (zobPieceSquare p)) := by
  induction l generalizing acc with
  | nil => simp [listXor_nil]
  | cons x xs ih =>
    show xs.foldl _ ((bitIndices (b.pieces x)).foldl _ acc) = _
    rw [foldl_xor_shift, ih, listXor_cons, Nat.xor_assoc]

lemma piecesKey_eq_listXor (b : Board) :
    piecesKey b = listXor allPieces (fun p =>
      listXor (bitIndices (b.pieces p)) (zobPieceSquare p)) := by
  unfold piecesKey
  rw [piecesKey_foldl_aux]
  simp

lemma listXor_single_piece (b : Board) (i : Nat) :
    listXor allPieces (fun p =>
      if b.pieceAt i = some p then zobPieceSquare p i else 0) =
      squareTerm b i := by
  rcases h : b.pieceAt i with _ | q
  · rw [listXor_congr (g := fun _ => 0) (fun p _ => by simp),
      listXor_zero]
    unfold squareTerm
    rw [h]
  · unfold squareTerm
    rw [h]
    cases q <;> simp [allPieces, listXor_cons, listXor_nil, h]

lemma piecesKey_eq_mailboxKey {b : Board} (hInv : b.Inv) :
    piecesKey b = mailboxKey b := by
  obtain ⟨hb1, _, hb3, _⟩ := hInv
  rw [piecesKey_eq_listXor]
  unfold bitIndices
  have step1 : ∀ p : Piece,
      listXor ((List.range 64).filter (b.pieces p).testBit)
        (zobPieceSquare p) =
      listXor (List.range 64) (fun i =>
        if b.pieceAt i = some p then zobPieceSquare p i else 0) := by
    intro p
    rw [listXor_filter]
    exact listXor_congr fun i _ => by rw [hb3 p i]; by_cases h : b.pieceAt i = some p <;> simp [h]
  rw [listXor_congr fun p _ => step1 p, listXor_swap]
  exact listXor_congr fun i _ => listXor_single_piece b i

lemma boards_eq_of_Inv {b1 b2 : Board} (h1 : b1.Inv) (h2 : b2.Inv)
    (h : ∀ i : Nat, b1.pieceAt i = b2.pieceAt i) : b1 = b2 := by
  obtain ⟨ha1, ha2, ha3, ha4⟩ := h1
  obtain ⟨hc1, hc2, hc3, hc4⟩ := h2
  obtain ⟨sq1, pc1, co1⟩ := b1
  obtain ⟨sq2, pc2, co2⟩ := b2
  have hsq : sq1 = sq2 := by
    funext t
    have := h t.val
    unfold Board.pieceAt at this
    simpa [t.isLt] using this
  have hpc : pc1 = pc2 := by
    funext p
    refine Nat.eq_of_testBit_eq fun i => ?_
    rw [ha3 p i, hc3 p i, h i]
  have hco : co1 = co2 := by
    funext c
    refine Nat.eq_of_testBit_eq fun i => ?_
    rw [ha4 c i, hc4 c i, h i]
  rw [hsq, hpc, hco]

lemma Position.ext' {p1 p2 : Position} (hb : p1.board = p2.board)
    (hc : p1.colour_to_move = p2.colour_to_move)
    (hcr : p1.castling_rights = p2.castling_rights)
    (hep : p1.en_passant_square = p2.en_passant_square)
    (hh : p1.half_move_clock = p2.half_move_clock)
    (hf : p1.full_move_counter = p2.full_move_counter)
    (hk : p1.key = p2.key) (hhist : p1.history = p2.history) : p1 = p2 := by
  obtain ⟨b1, c1, cr1, e1, h1, f1, k1, l1⟩ := p1
  obtain ⟨b2, c2, cr2, e2, h2, f2, k2, l2⟩ := p2
  simp_all

/-- The computeKey decomposition into its four xor components. -/
lemma computeKey_decomp (pos : Position) :
    pos.computeKey =
      ((piecesKey pos.board ^^^ sideKey pos.colour_to_move) ^^^
        zobCastlingRights pos.castling_rights.value) ^^^
      epTerm pos.en_passant_square pos.colour_to_move pos.board := by
  unfold Position.computeKey sideKey epTerm
  rcases pos.en_passant_square with _ | e
  · by_cases hc : pos.colour_to_move = .Black <;> simp [hc]
  · by_cases hc : pos.colour_to_move = .Black <;>
      simp [hc] <;> split_ifs <;> simp

lemma sideKey_not (c : Colour) :
    sideKey (Colour.not c) = sideKey c ^^^ zobColourToMove := by
  cases c <;> simp [sideKey, Colour.not]

-- ---------------------------------------------------------------------------
-- make_move equals its total form
-- ---------------------------------------------------------------------------

lemma isCorner_cases {s : Square} (h : Sq.isCorner s = true) :
    s = 0 ∨ s = 7 ∨ s = 56 ∨ s = 63 := by
  by_contra hc
  push_neg at hc
  obtain ⟨h0, h7, h56, h63⟩ := hc
  have : Sq.isCorner s = false := by
    simp only [Sq.isCorner, ne_eq, decide_eq_false_iff_not, Decidable.not_not]
    refine Nat.eq_of_testBit_eq fun i => ?_
    rw [Nat.testBit_and, Sq.bb_testBit, CORNERS_eq]
    simp only [Nat.testBit_or, Nat.testBit_two_pow, Nat.zero_testBit]
    by_cases hsi : s = i
    · subst hsi
      have : (decide (0 = s) || decide (7 = s) || decide (56 = s) ||
          decide (63 = s)) = false := by
        simp only [Bool.or_eq_false_iff, decide_eq_false_iff_not]
        exact ⟨⟨⟨fun h => h0 h.symm, fun h => h7 h.symm⟩,
          fun h => h56 h.symm⟩, fun h => h63 h.symm⟩
      rw [this, Bool.and_false]
    · have : decide (s = i) = false := decide_eq_false hsi
      rw [this, Bool.and_false, Bool.false_and]
  rw [this] at h
  cases h

lemma removeForSquare_eq_total {s : Square} (h : Sq.isCorner s = true)
    (cr : CastlingRights) :
    cr.removeForSquare s = some (removeForSquareTotal cr s) := by
  rcases isCorner_cases h with rfl | rfl | rfl | rfl <;> rfl

lemma makeMove_eq_T (pos : Position) (mv : Move) :
    pos.makeMove mv = pos.makeMoveT mv := by
  unfold Position.makeMove Position.makeMove? Position.makeMoveT
  by_cases h1 : Sq.isCorner mv.from_sq <;>
    by_cases h2 : Sq.isCorner mv.to_sq <;>
    simp [h1, h2, removeForSquare_eq_total]

-- ---------------------------------------------------------------------------
-- Small algebraic facts about the state components
-- ---------------------------------------------------------------------------

lemma Colour.not_not (c : Colour) : Colour.not (Colour.not c) = c := by
  cases c <;> rfl

lemma isPawn_eq_pawn {p : Piece} (h : isPawn p = true) :
    p = pawn (pieceColour p) := by
  cases p <;> first | rfl | simp [isPawn] at h

lemma pawn_ne_pawn_not (c : Colour) : pawn c ≠ pawn (Colour.not c) := by
  cases c <;> decide

lemma isPawn_not_isKing {p : Piece} (h : isPawn p = true) :
    isKing p = false := by
  cases p <;> first | rfl | simp [isPawn] at h

lemma removeBit_mask_lt {cr : CastlingRights} {bit : Nat} (h : cr.mask < 16) :
    (cr.removeBit bit).mask < 16 :=
  lt_of_le_of_lt Nat.and_le_left h

lemma removeForColour_mask_lt {cr : CastlingRights} {c : Colour}
    (h : cr.mask < 16) : (cr.removeForColour c).mask < 16 := by
  cases c <;> exact removeBit_mask_lt (removeBit_mask_lt h)

lemma removeForSquareTotal_mask_lt {cr : CastlingRights} {s : Square}
    (h : cr.mask < 16) : (removeForSquareTotal cr s).mask < 16 := by
  unfold removeForSquareTotal
  split_ifs <;> first | exact removeBit_mask_lt h | exact h

lemma epOut_eq (pos : Position) :
    (match pos.en_passant_square with
     | some e =>
       if en_passant_sources e pos.colour_to_move pos.board ≠ 0 then
         pos.key ^^^ zobEnPassantFile (Sq.file e)
       else pos.key
     | Option.none => pos.key) =
    pos.key ^^^ epTerm pos.en_passant_square pos.colour_to_move pos.board := by
  unfold epTerm
  rcases pos.en_passant_square with _ | e
  · simp
  · by_cases h : en_passant_sources e pos.colour_to_move pos.board = 0 <;>
      simp [h]

-- ---------------------------------------------------------------------------
-- Composite board-operation steps
-- ---------------------------------------------------------------------------

lemma removeStep {b : Board} {s : Nat} {p : Piece} (hInv : b.Inv)
    (h : b.pieceAt s = some p) :
    (b.removePiece s).Inv ∧
    piecesKey (b.removePiece s) = piecesKey b ^^^ zobPieceSquare p s ∧
    (∀ i, (b.removePiece s).pieceAt i =
      if i = s then Option.none else b.pieceAt i) ∧
    (∀ q, q ≠ p → (b.removePiece s).pieces q = b.pieces q) := by
  have hInv' := hInv.removePiece h
  refine ⟨hInv', ?_, Board.pieceAt_removePiece h, ?_⟩
  · rw [piecesKey_eq_mailboxKey hInv', piecesKey_eq_mailboxKey hInv,
      mailboxKey_removePiece h]
  · intro q hq
    rw [Board.pieces_removePiece h, if_neg hq]

lemma moveStep {b : Board} {fromSq toSq : Nat} {p tp : Piece} (hInv : b.Inv)
    (hfrom : b.pieceAt fromSq = some p)
    (hto : b.pieceAt toSq = Option.none) (hne : fromSq ≠ toSq)
    (hto64 : toSq < 64) :
    ((b.putPiece tp toSq).removePiece fromSq).Inv ∧
    piecesKey ((b.putPiece tp toSq).removePiece fromSq) =
      (piecesKey b ^^^ zobPieceSquare tp toSq) ^^^ zobPieceSquare p fromSq ∧
    (∀ i, ((b.putPiece tp toSq).removePiece fromSq).pieceAt i =
      if i = fromSq then Option.none
      else if i = toSq then some tp else b.pieceAt i) ∧
    (∀ q, q ≠ p → q ≠ tp →
      ((b.putPiece tp toSq).removePiece fromSq).pieces q = b.pieces q) := by
  have hInv1 := hInv.putPiece tp hto64 hto
  have h1from : (b.putPiece tp toSq).pieceAt fromSq = some p := by
    rw [Board.pieceAt_putPiece b tp hto64, if_neg hne, hfrom]
  have hInv2 := hInv1.removePiece h1from
  refine ⟨hInv2, ?_, ?_, ?_⟩
  · rw [piecesKey_eq_mailboxKey hInv2, piecesKey_eq_mailboxKey hInv,
      mailboxKey_removePiece h1from, mailboxKey_putPiece tp hto64 hto]
  · intro i
    rw [Board.pieceAt_removePiece h1from i, Board.pieceAt_putPiece b tp hto64 i]
  · intro q hq1 hq2
    rw [Board.pieces_removePiece h1from q, if_neg hq1,
      Board.pieces_putPiece b tp hto64 q, if_neg hq2]

lemma epTerm_none (c : Colour) (b : Board) :
    epTerm Option.none c b = 0 := rfl

lemma en_passant_sources_congr {b b' : Board} (c : Colour) (e : Square)
    (h : b.pieces (pawn c) = b'.pieces (pawn c)) :
    en_passant_sources e c b = en_passant_sources e c b' := by
  unfold en_passant_sources
  rw [h]

lemma pawn_not_ne (c : Colour) : pawn (Colour.not c) ≠ pawn c := by
  cases c <;> decide

lemma isKing_not_isPawn {p : Piece} (h : isKing p = true) :
    isPawn p = false := by
  cases p <;> first | rfl | simp [isKing] at h

lemma moveStepRev {b : Board} {toSq fromSq : Nat} {p tp : Piece}
    (hInv : b.Inv) (hto : b.pieceAt toSq = some tp)
    (hfrom : b.pieceAt fromSq = Option.none) (hfrom64 : fromSq < 64) :
    ((b.removePiece toSq).putPiece p fromSq).Inv ∧
    (∀ i, ((b.removePiece toSq).putPiece p fromSq).pieceAt i =
      if i = fromSq then some p
      else if i = toSq then Option.none else b.pieceAt i) := by
  have hInv1 := hInv.removePiece hto
  have h1 : (b.removePiece toSq).pieceAt fromSq = Option.none := by
    rw [Board.pieceAt_removePiece hto fromSq]
    split_ifs <;> simp [hfrom]
  refine ⟨hInv1.putPiece p hfrom64 h1, fun i => ?_⟩
  rw [Board.pieceAt_putPiece _ p hfrom64 i, Board.pieceAt_removePiece hto i]

lemma cornerChain_mask_lt {cr : CastlingRights} (h : cr.mask < 16)
    (s t : Square) : (cornerChain cr s t).mask < 16 := by
  unfold cornerChain
  split_ifs <;>
    first
      | exact removeForSquareTotal_mask_lt (removeForSquareTotal_mask_lt h)
      | exact removeForSquareTotal_mask_lt h
      | exact h

lemma rookRestore_of_notCastling {mv : Move} (h : mv.isCastling = false)
    (rp : Piece) (b : Board) :
    (if mv.isCastling then
      if mv.to_sq = 2 ∨ mv.to_sq = 58 then
        (b.putPiece rp (squareOf 0 (Sq.rank mv.to_sq))).removePiece
          (squareOf 3 (Sq.rank mv.to_sq))
      else if mv.to_sq = 6 ∨ mv.to_sq = 62 then
        (b.putPiece rp (squareOf 7 (Sq.rank mv.to_sq))).removePiece
          (squareOf 5 (Sq.rank mv.to_sq))
      else b
    else b) = b := by
  simp [h]

lemma rookRestore_of_otherTarget {mv : Move}
    (h1 : ¬(mv.to_sq = 2 ∨ mv.to_sq = 58))
    (h2 : ¬(mv.to_sq = 6 ∨ mv.to_sq = 62)) (rp : Piece) (b : Board) :
    (if mv.isCastling then
      if mv.to_sq = 2 ∨ mv.to_sq = 58 then
        (b.putPiece rp (squareOf 0 (Sq.rank mv.to_sq))).removePiece
          (squareOf 3 (Sq.rank mv.to_sq))
      else if mv.to_sq = 6 ∨ mv.to_sq = 62 then
        (b.putPiece rp (squareOf 7 (Sq.rank mv.to_sq))).removePiece
          (squareOf 5 (Sq.rank mv.to_sq))
      else b
    else b) = b := by
  by_cases hc : mv.isCastling = true
  · rw [if_pos hc, if_neg h1, if_neg h2]
  · rw [if_neg hc]

/-- Shared make/unmake correctness core for the make_move paths that clear
no capture square and move no rook: hypothesis hT carries the shape
make_move takes on the path, with the new en passant square and its key
contribution abstracted. The after-state is well-formed and unmake_move
restores the original position. -/
lemma spec_coreQuiet (pos : Position) (mv : Move) (cr0 : CastlingRights)
    (ep' : Option Square) (half' kx : Nat)
    (hInv : pos.board.Inv) (hfull : pos.full_move_counter < 256)
    (hkey : pos.key = pos.computeKey)
    (h64f : mv.from_sq < 64) (h64t : mv.to_sq < 64)
    (hne : ¬mv.from_sq = mv.to_sq)
    (hfrom : pos.board.pieceAt mv.from_sq = some mv.piece)
    (hto : pos.board.pieceAt mv.to_sq = Option.none)
    (hUB : ∀ b : Board,
      (if mv.isCastling then
        if mv.to_sq = 2 ∨ mv.to_sq = 58 then
          (b.putPiece (rook (Colour.not (Colour.not pos.colour_to_move)))
            (squareOf 0 (Sq.rank mv.to_sq))).removePiece
            (squareOf 3 (Sq.rank mv.to_sq))
        else if mv.to_sq = 6 ∨ mv.to_sq = 62 then
          (b.putPiece (rook (Colour.not (Colour.not pos.colour_to_move)))
            (squareOf 7 (Sq.rank mv.to_sq))).removePiece
            (squareOf 5 (Sq.rank mv.to_sq))
        else b
      else b) = b)
    (hcap : mv.captured_piece = Option.none)
    (hcr0 : cr0.mask < 16) (hhalf' : half' < 256)
    (hepT : epTerm ep' (Colour.not pos.colour_to_move)
      ((pos.board.putPiece (mv.promotion_piece.getD mv.piece)
        mv.to_sq).removePiece mv.from_sq) = kx)
    (hT : pos.makeMoveT mv =
      { board := (pos.board.putPiece (mv.promotion_piece.getD mv.piece)
          mv.to_sq).removePiece mv.from_sq,
        colour_to_move := Colour.not pos.colour_to_move,
        castling_rights := cornerChain cr0 mv.from_sq mv.to_sq,
        en_passant_square := ep',
        half_move_clock := half',
        full_move_counter :=
          if pos.colour_to_move = .Black then (pos.full_move_counter + 1) % 256
          else pos.full_move_counter,
        key :=
          ((((((pos.key ^^^
              epTerm pos.en_passant_square pos.colour_to_move pos.board) ^^^
              kx) ^^^
              zobCastlingRights (cornerChain cr0 mv.from_sq mv.to_sq).value) ^^^
              zobCastlingRights pos.castling_rights.value) ^^^
              zobPieceSquare (mv.promotion_piece.getD mv.piece) mv.to_sq) ^^^
              zobPieceSquare mv.piece mv.from_sq) ^^^
            zobColourToMove,
        history :=
          ⟨pos.castling_rights, pos.en_passant_square, pos.half_move_clock,
            pos.key⟩ :: pos.history }) :
    (pos.makeMoveT mv).Wf ∧ (pos.makeMoveT mv).unmakeMove mv = pos := by
  rw [hT]
  obtain ⟨hmInv, hmKey, hmAt, hmBB⟩ := moveStep hInv hfrom hto hne h64t
  constructor
  · refine ⟨hmInv, cornerChain_mask_lt hcr0 _ _, hhalf', ?_, ?_⟩
    · dsimp only
      split_ifs
      · exact Nat.mod_lt _ (by norm_num)
      · exact hfull
    · rw [computeKey_decomp]
      dsimp only
      rw [hmKey, sideKey_not, hepT]
      rw [computeKey_decomp] at hkey
      rw [hkey]
      simp [Nat.xor_assoc, Nat.xor_comm, xor_left_comm, Nat.xor_cancel_left,
        Nat.xor_self]
  · simp only [Position.unmakeMove, hcap]
    rw [hUB]
    have hb3to : ((pos.board.putPiece (mv.promotion_piece.getD mv.piece)
        mv.to_sq).removePiece mv.from_sq).pieceAt mv.to_sq =
        some (mv.promotion_piece.getD mv.piece) := by
      rw [hmAt mv.to_sq, if_neg (fun h => hne h.symm), if_pos rfl]
    have hb3from : ((pos.board.putPiece (mv.promotion_piece.getD mv.piece)
        mv.to_sq).removePiece mv.from_sq).pieceAt mv.from_sq =
        Option.none := by
      rw [hmAt mv.from_sq, if_pos rfl]
    obtain ⟨huInv, huAt⟩ := moveStepRev hmInv hb3to hb3from h64f
    refine Position.ext' ?_ ?_ rfl rfl rfl ?_ rfl rfl
    · refine boards_eq_of_Inv huInv hInv fun i => ?_
      rw [huAt i]
      by_cases hif : i = mv.from_sq
      · subst hif
        rw [if_pos rfl, hfrom]
      · rw [if_neg hif]
        by_cases hit : i = mv.to_sq
        · subst hit
          rw [if_pos rfl, hto]
        · rw [if_neg hit, hmAt i, if_neg hif, if_neg hit]
    · exact Colour.not_not pos.colour_to_move
    · dsimp only
      rcases hc : pos.colour_to_move with _ | _
      · simp [Colour.not]
      · simp [Colour.not]
        omega

/-- Shared make/unmake correctness core for the capturing make_move paths
(normal and en passant, any mover): the capture square cs, the piece on
it, and the shape hypothesis hT are abstracted over the path. -/
lemma spec_coreCapture (pos : Position) (mv : Move) (cp : Piece)
    (cr0 : CastlingRights) (cs : Square)
    (hInv : pos.board.Inv) (hfull : pos.full_move_counter < 256)
    (hkey : pos.key = pos.computeKey)
    (h64f : mv.from_sq < 64) (h64t : mv.to_sq < 64)
    (hne : ¬mv.from_sq = mv.to_sq)
    (hfrom : pos.board.pieceAt mv.from_sq = some mv.piece)
    (hcastF : mv.isCastling = false)
    (hcap : mv.captured_piece = some cp)
    (hcs : (if mv.is_en_passant then Sq.advance mv.to_sq (pieceColour cp)
            else mv.to_sq) = cs)
    (hcsAt : pos.board.pieceAt cs = some cp)
    (hcsFrom : ¬cs = mv.from_sq)
    (hcsTo : cs = mv.to_sq ∨
      (¬cs = mv.to_sq ∧ pos.board.pieceAt mv.to_sq = Option.none))
    (hcr0 : cr0.mask < 16)
    (hT : pos.makeMoveT mv =
      { board := (((pos.board.removePiece cs).putPiece
          (mv.promotion_piece.getD mv.piece) mv.to_sq).removePiece
          mv.from_sq),
        colour_to_move := Colour.not pos.colour_to_move,
        castling_rights := cornerChain cr0 mv.from_sq mv.to_sq,
        en_passant_square := Option.none,
        half_move_clock := 0,
        full_move_counter :=
          if pos.colour_to_move = .Black then (pos.full_move_counter + 1) % 256
          else pos.full_move_counter,
        key :=
          ((((((pos.key ^^^
              epTerm pos.en_passant_square pos.colour_to_move pos.board) ^^^
              zobPieceSquare cp cs) ^^^
              zobCastlingRights (cornerChain cr0 mv.from_sq mv.to_sq).value) ^^^
              zobCastlingRights pos.castling_rights.value) ^^^
              zobPieceSquare (mv.promotion_piece.getD mv.piece) mv.to_sq) ^^^
              zobPieceSquare mv.piece mv.from_sq) ^^^
            zobColourToMove,
        history :=
          ⟨pos.castling_rights, pos.en_passant_square, pos.half_move_clock,
            pos.key⟩ :: pos.history }) :
    (pos.makeMoveT mv).Wf ∧ (pos.makeMoveT mv).unmakeMove mv = pos := by
  rw [hT]
  obtain ⟨h1Inv, h1Key, h1At, h1BB⟩ := removeStep hInv hcsAt
  have h1from : (pos.board.removePiece cs).pieceAt mv.from_sq =
      some mv.piece := by
    rw [h1At mv.from_sq, if_neg (fun h => hcsFrom h.symm), hfrom]
  have h1to : (pos.board.removePiece cs).pieceAt mv.to_sq = Option.none := by
    rw [h1At mv.to_sq]
    rcases hcsTo with h | ⟨h, hte⟩
    · rw [if_pos h.symm]
    · rw [if_neg (fun hh => h hh.symm), hte]
  obtain ⟨hmInv, hmKey, hmAt, hmBB⟩ := moveStep h1Inv h1from h1to hne h64t
  constructor
  · refine ⟨hmInv, cornerChain_mask_lt hcr0 _ _, by norm_num, ?_, ?_⟩
    · dsimp only
      split_ifs
      · exact Nat.mod_lt _ (by norm_num)
      · exact hfull
    · rw [computeKey_decomp]
      dsimp only
      rw [hmKey, h1Key, sideKey_not, epTerm_none]
      rw [computeKey_decomp] at hkey
      rw [hkey]
      simp [Nat.xor_assoc, Nat.xor_comm, xor_left_comm, Nat.xor_cancel_left,
        Nat.xor_self]
  · simp only [Position.unmakeMove, hcastF, hcap, Bool.false_eq_true,
      if_false]
    rw [hcs]
    have hb3to : (((pos.board.removePiece cs).putPiece
        (mv.promotion_piece.getD mv.piece) mv.to_sq).removePiece
        mv.from_sq).pieceAt mv.to_sq =
        some (mv.promotion_piece.getD mv.piece) := by
      rw [hmAt mv.to_sq, if_neg (fun h => hne h.symm), if_pos rfl]
    have hb3from : (((pos.board.removePiece cs).putPiece
        (mv.promotion_piece.getD mv.piece) mv.to_sq).removePiece
        mv.from_sq).pieceAt mv.from_sq = Option.none := by
      rw [hmAt mv.from_sq, if_pos rfl]
    obtain ⟨huInv, huAt⟩ := moveStepRev hmInv hb3to hb3from h64f
    have hcs64 : cs < 64 := Board.pieceAt_lt hcsAt
    have hr2cs : (((((pos.board.removePiece cs).putPiece
        (mv.promotion_piece.getD mv.piece) mv.to_sq).removePiece
        mv.from_sq).removePiece mv.to_sq).putPiece mv.piece
        mv.from_sq).pieceAt cs = Option.none := by
      rw [huAt cs, if_neg hcsFrom]
      rcases hcsTo with h | ⟨h, hte⟩
      · rw [if_pos h]
      · rw [if_neg h, hmAt cs, if_neg hcsFrom, if_neg h, h1At cs,
          if_pos rfl]
    have hfInv := huInv.putPiece cp hcs64 hr2cs
    refine Position.ext' ?_ ?_ rfl rfl rfl ?_ rfl rfl
    · refine boards_eq_of_Inv hfInv hInv fun i => ?_
      rw [Board.pieceAt_putPiece _ cp hcs64 i]
      by_cases hics : i = cs
      · subst hics
        rw [if_pos rfl, hcsAt]
      · rw [if_neg hics, huAt i]
        by_cases hif : i = mv.from_sq
        · subst hif
          rw [if_pos rfl, hfrom]
        · rw [if_neg hif]
          by_cases hit : i = mv.to_sq
          · subst hit
            rw [if_pos rfl]
            rcases hcsTo with h | ⟨h, hte⟩
            · exact absurd h.symm hics
            · rw [hte]
          · rw [if_neg hit, hmAt i, if_neg hif, if_neg hit, h1At i,
              if_neg hics]
    · exact Colour.not_not pos.colour_to_move
    · dsimp only
      rcases hc : pos.colour_to_move with _ | _
      · simp [Colour.not]
      · simp [Colour.not]
        omega

/-- Shared make/unmake correctness core for the castling paths: the rook
moves from its corner rf to rt before the king moves, and unmake_move
moves it back; hUB abstracts the reduction of unmake_move's rook-restore
branch on the path. -/
lemma spec_coreCastle (pos : Position) (mv : Move) (rf rt : Square)
    (hInv : pos.board.Inv) (hcr16 : pos.castling_rights.mask < 16)
    (hfull : pos.full_move_counter < 256)
    (hkey : pos.key = pos.computeKey)
    (h64f : mv.from_sq < 64) (h64t : mv.to_sq < 64)
    (hne : ¬mv.from_sq = mv.to_sq)
    (hfrom : pos.board.pieceAt mv.from_sq = some mv.piece)
    (hto : pos.board.pieceAt mv.to_sq = Option.none)
    (hcastT : mv.isCastling = true)
    (hcap : mv.captured_piece = Option.none)
    (hrfAt : pos.board.pieceAt rf = some (rook pos.colour_to_move))
    (hrtAt : pos.board.pieceAt rt = Option.none)
    (h64rt : rt < 64)
    (hrfrt : ¬rf = rt)
    (hrfF : ¬rf = mv.from_sq) (hrfT : ¬rf = mv.to_sq)
    (hrtF : ¬rt = mv.from_sq) (hrtT : ¬rt = mv.to_sq)
    (hUB : ∀ b : Board,
      (if mv.to_sq = 2 ∨ mv.to_sq = 58 then
        (b.putPiece (rook (Colour.not (Colour.not pos.colour_to_move)))
          (squareOf 0 (Sq.rank mv.to_sq))).removePiece
          (squareOf 3 (Sq.rank mv.to_sq))
      else if mv.to_sq = 6 ∨ mv.to_sq = 62 then
        (b.putPiece (rook (Colour.not (Colour.not pos.colour_to_move)))
          (squareOf 7 (Sq.rank mv.to_sq))).removePiece
          (squareOf 5 (Sq.rank mv.to_sq))
      else b) =
      (b.putPiece (rook pos.colour_to_move) rf).removePiece rt)
    (hT : pos.makeMoveT mv =
      { board := ((((pos.board.putPiece (rook pos.colour_to_move)
          rt).removePiece rf).putPiece
          (mv.promotion_piece.getD mv.piece) mv.to_sq).removePiece
          mv.from_sq),
        colour_to_move := Colour.not pos.colour_to_move,
        castling_rights := cornerChain
          (pos.castling_rights.removeForColour pos.colour_to_move)
          mv.from_sq mv.to_sq,
        en_passant_square := Option.none,
        half_move_clock := (pos.half_move_clock + 1) % 256,
        full_move_counter :=
          if pos.colour_to_move = .Black then (pos.full_move_counter + 1) % 256
          else pos.full_move_counter,
        key :=
          (((((((pos.key ^^^
              epTerm pos.en_passant_square pos.colour_to_move pos.board) ^^^
              zobPieceSquare (rook pos.colour_to_move) rt) ^^^
              zobPieceSquare (rook pos.colour_to_move) rf) ^^^
              zobCastlingRights (cornerChain
                (pos.castling_rights.removeForColour pos.colour_to_move)
                mv.from_sq mv.to_sq).value) ^^^
              zobCastlingRights pos.castling_rights.value) ^^^
              zobPieceSquare (mv.promotion_piece.getD mv.piece) mv.to_sq) ^^^
              zobPieceSquare mv.piece mv.from_sq) ^^^
            zobColourToMove,
        history :=
          ⟨pos.castling_rights, pos.en_passant_square, pos.half_move_clock,
            pos.key⟩ :: pos.history }) :
    (pos.makeMoveT mv).Wf ∧ (pos.makeMoveT mv).unmakeMove mv = pos := by
  rw [hT]
  obtain ⟨h2Inv, h2Key, h2At, h2BB⟩ := moveStep hInv hrfAt hrtAt hrfrt h64rt
  have h2from : ((pos.board.putPiece (rook pos.colour_to_move)
      rt).removePiece rf).pieceAt mv.from_sq = some mv.piece := by
    rw [h2At mv.from_sq, if_neg (fun h => hrfF h.symm),
      if_neg (fun h => hrtF h.symm), hfrom]
  have h2to : ((pos.board.putPiece (rook pos.colour_to_move)
      rt).removePiece rf).pieceAt mv.to_sq = Option.none := by
    rw [h2At mv.to_sq, if_neg (fun h => hrfT h.symm),
      if_neg (fun h => hrtT h.symm), hto]
  obtain ⟨hmInv, hmKey, hmAt, hmBB⟩ := moveStep h2Inv h2from h2to hne h64t
  constructor
  · refine ⟨hmInv,
      cornerChain_mask_lt (removeForColour_mask_lt hcr16) _ _,
      Nat.mod_lt _ (by norm_num), ?_, ?_⟩
    · dsimp only
      split_ifs
      · exact Nat.mod_lt _ (by norm_num)
      · exact hfull
    · rw [computeKey_decomp]
      dsimp only
      rw [hmKey, h2Key, sideKey_not, epTerm_none]
      rw [computeKey_decomp] at hkey
      rw [hkey]
      simp [Nat.xor_assoc, Nat.xor_comm, xor_left_comm, Nat.xor_cancel_left,
        Nat.xor_self]
  · simp only [Position.unmakeMove, hcastT, hcap, eq_self_iff_true, if_true]
    rw [hUB]
    have hb3rt : ((((pos.board.putPiece (rook pos.colour_to_move)
        rt).removePiece rf).putPiece
        (mv.promotion_piece.getD mv.piece) mv.to_sq).removePiece
        mv.from_sq).pieceAt rt = some (rook pos.colour_to_move) := by
      rw [hmAt rt, if_neg hrtF, if_neg hrtT, h2At rt,
        if_neg (fun h => hrfrt h.symm), if_pos rfl]
    have hb3rf : ((((pos.board.putPiece (rook pos.colour_to_move)
        rt).removePiece rf).putPiece
        (mv.promotion_piece.getD mv.piece) mv.to_sq).removePiece
        mv.from_sq).pieceAt rf = Option.none := by
      rw [hmAt rf, if_neg hrfF, if_neg hrfT, h2At rf, if_pos rfl]
    have h64rf : rf < 64 := Board.pieceAt_lt hrfAt
    obtain ⟨h4Inv, h4Key, h4At, h4BB⟩ :=
      moveStep hmInv hb3rt hb3rf (fun h => hrfrt h.symm) h64rf
    have hr1to : ((((((pos.board.putPiece (rook pos.colour_to_move)
        rt).removePiece rf).putPiece
        (mv.promotion_piece.getD mv.piece) mv.to_sq).removePiece
        mv.from_sq).putPiece (rook pos.colour_to_move) rf).removePiece
        rt).pieceAt mv.to_sq = some (mv.promotion_piece.getD mv.piece) := by
      rw [h4At mv.to_sq, if_neg (fun h => hrtT h.symm),
        if_neg (fun h => hrfT h.symm), hmAt mv.to_sq,
        if_neg (fun h => hne h.symm), if_pos rfl]
    have hr1from : ((((((pos.board.putPiece (rook pos.colour_to_move)
        rt).removePiece rf).putPiece
        (mv.promotion_piece.getD mv.piece) mv.to_sq).removePiece
        mv.from_sq).putPiece (rook pos.colour_to_move) rf).removePiece
        rt).pieceAt mv.from_sq = Option.none := by
      rw [h4At mv.from_sq, if_neg (fun h => hrtF h.symm),
        if_neg (fun h => hrfF h.symm), hmAt mv.from_sq, if_pos rfl]
    obtain ⟨huInv, huAt⟩ := moveStepRev h4Inv hr1to hr1from h64f
    refine Position.ext' ?_ ?_ rfl rfl rfl ?_ rfl rfl
    · refine boards_eq_of_Inv huInv hInv fun i => ?_
      rw [huAt i]
      by_cases hif : i = mv.from_sq
      · subst hif
        rw [if_pos rfl, hfrom]
      · rw [if_neg hif]
        by_cases hit : i = mv.to_sq
        · subst hit
          rw [if_pos rfl, hto]
        · rw [if_neg hit, h4At i]
          by_cases hirt : i = rt
          · subst hirt
            rw [if_pos rfl, hrtAt]
          · rw [if_neg hirt]
            by_cases hirf : i = rf
            · subst hirf
              rw [if_pos rfl, hrfAt]
            · rw [if_neg hirf, hmAt i, if_neg hif, if_neg hit, h2At i,
                if_neg hirf, if_neg hirt]
    · exact Colour.not_not pos.colour_to_move
    · dsimp only
      rcases hc : pos.colour_to_move with _ | _
      · simp [Colour.not]
      · simp [Colour.not]
        omega

/-- make_move on a coherent move of a well-formed position yields a
well-formed position, and unmake_move then restores the original position
exactly, on every control-flow path of make_move. -/
lemma makeMoveT_spec (pos : Position) (mv : Move) (hwf : pos.Wf)
    (hok : mv.okB pos = true) :
    (pos.makeMoveT mv).Wf ∧ (pos.makeMoveT mv).unmakeMove mv = pos := by
  obtain ⟨hInv, hcr16, hhalf, hfull, hkey⟩ := hwf
  simp only [Move.okB, Bool.and_eq_true, decide_eq_true_eq, beq_iff_eq,
    ne_eq] at hok
  obtain ⟨⟨⟨⟨⟨⟨⟨h64f, h64t⟩, hne⟩, hfrom⟩, hcol⟩, hcapM⟩, hdpB⟩, hcastB⟩ := hok
  by_cases hpw : isPawn mv.piece = true
  · -- pawn moves
    have hkingF : isKing mv.piece = false := isPawn_not_isKing hpw
    have hcastF : mv.isCastling = false := by
      simp [Move.isCastling, hkingF]
    by_cases hrd : mv.rankDiff = 2
    · -- double pawn push
      have hdp : mv.captured_piece = Option.none ∧
          mv.promotion_piece = Option.none := by
        simpa [hpw, hrd] using hdpB
      obtain ⟨hcap, hpromo⟩ := hdp
      have hto : pos.board.pieceAt mv.to_sq = Option.none := by
        simpa [hcap] using hcapM
      have hpc : mv.piece = pawn pos.colour_to_move := by
        have h := isPawn_eq_pawn hpw
        rwa [hcol] at h
      have hq1 : pawn (Colour.not pos.colour_to_move) ≠ mv.piece := by
        rw [hpc]
        exact pawn_not_ne pos.colour_to_move
      have hq2 : pawn (Colour.not pos.colour_to_move) ≠
          mv.promotion_piece.getD mv.piece := by
        rw [hpromo]
        simpa using hq1
      have hBB := (moveStep hInv hfrom hto hne h64t).2.2.2
        (pawn (Colour.not pos.colour_to_move)) hq1 hq2
      have hepT : epTerm (some (Sq.advance mv.from_sq pos.colour_to_move))
          (Colour.not pos.colour_to_move)
          ((pos.board.putPiece (mv.promotion_piece.getD mv.piece)
            mv.to_sq).removePiece mv.from_sq) =
          (if en_passant_sources (Sq.advance mv.from_sq pos.colour_to_move)
              (Colour.not pos.colour_to_move) pos.board ≠ 0 then
            zobEnPassantFile (Sq.file (Sq.advance mv.from_sq
              pos.colour_to_move))
          else 0) := by
        simp only [epTerm]
        rw [en_passant_sources_congr _ _ hBB]
      refine spec_coreQuiet pos mv pos.castling_rights
        (some (Sq.advance mv.from_sq pos.colour_to_move)) 0 _
        hInv hfull hkey h64f h64t hne hfrom hto
        (rookRestore_of_notCastling hcastF _) hcap hcr16
        (by norm_num) hepT ?_
      simp only [Position.makeMoveT, hcap, hpw, hrd, hkingF]
      rcases hep : pos.en_passant_square with _ | e
      · by_cases hnew : en_passant_sources
            (Sq.advance mv.from_sq pos.colour_to_move)
            (Colour.not pos.colour_to_move) pos.board = 0 <;>
          simp [hnew, epTerm, cornerChain]
      · simp only [epTerm]
        by_cases hold : en_passant_sources e pos.colour_to_move pos.board
            = 0 <;>
          by_cases hnew : en_passant_sources
              (Sq.advance mv.from_sq pos.colour_to_move)
              (Colour.not pos.colour_to_move) pos.board = 0 <;>
          simp [hold, hnew, cornerChain]
    · -- single pawn step
      rcases hcap : mv.captured_piece with _ | cp
      · have hto : pos.board.pieceAt mv.to_sq = Option.none := by
          simpa [hcap] using hcapM
        refine spec_coreQuiet pos mv pos.castling_rights Option.none 0 0
          hInv hfull hkey h64f h64t hne hfrom hto
          (rookRestore_of_notCastling hcastF _) hcap hcr16
          (by norm_num) rfl ?_
        simp only [Position.makeMoveT, hcap, hpw, hkingF]
        rcases hep : pos.en_passant_square with _ | e
        · simp [epTerm, cornerChain, hrd]
        · simp only [epTerm]
          by_cases hold : en_passant_sources e pos.colour_to_move pos.board
              = 0 <;> simp [hold, cornerChain, hrd]
      · by_cases hepc : mv.is_en_passant = true
        · -- en passant capture
          have hfacts : (¬Sq.advance mv.to_sq (pieceColour cp) = mv.from_sq ∧
              ¬Sq.advance mv.to_sq (pieceColour cp) = mv.to_sq ∧
              pos.board.pieceAt (Sq.advance mv.to_sq (pieceColour cp)) =
                some cp) ∧
              pos.board.pieceAt mv.to_sq = Option.none := by
            simpa [hcap, hepc, and_assoc] using hcapM
          obtain ⟨⟨hcsF, hcsT, hcsAt⟩, htoN⟩ := hfacts
          refine spec_coreCapture pos mv cp pos.castling_rights
            (Sq.advance mv.to_sq (pieceColour cp)) hInv hfull hkey h64f h64t
            hne hfrom hcastF hcap (by rw [if_pos hepc]) hcsAt hcsF
            (Or.inr ⟨hcsT, htoN⟩) hcr16 ?_
          simp only [Position.makeMoveT, hcap, hpw, hkingF, hepc]
          rcases hep : pos.en_passant_square with _ | e
          · simp [epTerm, cornerChain, hrd]
          · simp only [epTerm]
            by_cases hold : en_passant_sources e pos.colour_to_move
                pos.board = 0 <;> simp [hold, cornerChain, hrd]
        · -- plain capture by a pawn
          have hcpAt : pos.board.pieceAt mv.to_sq = some cp := by
            simpa [hcap, hepc] using hcapM
          refine spec_coreCapture pos mv cp pos.castling_rights mv.to_sq
            hInv hfull hkey h64f h64t hne hfrom hcastF hcap
            (by rw [if_neg hepc]) hcpAt (fun h => hne h.symm)
            (Or.inl rfl) hcr16 ?_
          simp only [Position.makeMoveT, hcap, hpw, hkingF]
          rcases hep : pos.en_passant_square with _ | e
          · simp [epTerm, cornerChain, hrd, hepc]
          · simp only [epTerm]
            by_cases hold : en_passant_sources e pos.colour_to_move
                pos.board = 0 <;> simp [hold, cornerChain, hrd, hepc]
  · -- non-pawn moves
    have hpwF : isPawn mv.piece = false := by
      rwa [Bool.not_eq_true] at hpw
    by_cases hk : isKing mv.piece = true
    · -- king moves
      by_cases hcast : mv.isCastling = true
      · -- castling flag set
        have hcb : mv.captured_piece = Option.none ∧
            (if mv.to_sq = 2 ∨ mv.to_sq = 58 then
              castlingRookOkB pos mv 0 3
            else if mv.to_sq = 6 ∨ mv.to_sq = 62 then
              castlingRookOkB pos mv 7 5
            else true) = true := by
          simpa [hcast] using hcastB
        obtain ⟨hcap, hrookB⟩ := hcb
        have hto : pos.board.pieceAt mv.to_sq = Option.none := by
          simpa [hcap] using hcapM
        by_cases ht1 : mv.to_sq = 2 ∨ mv.to_sq = 58
        · have hrook : castlingRookOkB pos mv 0 3 = true := by
            rw [if_pos ht1] at hrookB
            exact hrookB
          simp only [castlingRookOkB, Bool.and_eq_true, decide_eq_true_eq,
            beq_iff_eq, ne_eq] at hrook
          obtain ⟨⟨⟨⟨⟨hrfF, hrfT⟩, hrtF⟩, hrtT⟩, hrfAt⟩, hrtAt⟩ := hrook
          rcases ht1 with h2 | h58
          · have e1 : squareOf 0 (Sq.rank mv.to_sq) = 0 := by
              rw [h2]
              decide
            have e2 : squareOf 3 (Sq.rank mv.to_sq) = 3 := by
              rw [h2]
              decide
            rw [e1] at hrfF hrfT hrfAt
            rw [e2] at hrtF hrtT hrtAt
            refine spec_coreCastle pos mv 0 3 hInv hcr16 hfull hkey h64f
              h64t hne hfrom hto hcast hcap hrfAt hrtAt (by norm_num)
              (by norm_num) hrfF hrfT hrtF hrtT ?_ ?_
            · intro b
              rw [if_pos (Or.inl h2), h2, Colour.not_not]
              rfl
            · simp only [Position.makeMoveT, hcap, hpwF, hk, hcast, h2]
              rcases hep : pos.en_passant_square with _ | e
              · simp [epTerm, cornerChain, squareOf, Sq.rank]
              · simp only [epTerm]
                by_cases hold : en_passant_sources e pos.colour_to_move
                    pos.board = 0 <;>
                  simp [hold, cornerChain, squareOf, Sq.rank]
          · have e1 : squareOf 0 (Sq.rank mv.to_sq) = 56 := by
              rw [h58]
              decide
            have e2 : squareOf 3 (Sq.rank mv.to_sq) = 59 := by
              rw [h58]
              decide
            rw [e1] at hrfF hrfT hrfAt
            rw [e2] at hrtF hrtT hrtAt
            refine spec_coreCastle pos mv 56 59 hInv hcr16 hfull hkey h64f
              h64t hne hfrom hto hcast hcap hrfAt hrtAt (by norm_num)
              (by norm_num) hrfF hrfT hrtF hrtT ?_ ?_
            · intro b
              rw [if_pos (Or.inr h58), h58, Colour.not_not]
              rfl
            · simp only [Position.makeMoveT, hcap, hpwF, hk, hcast, h58]
              rcases hep : pos.en_passant_square with _ | e
              · simp [epTerm, cornerChain, squareOf, Sq.rank]
              · simp only [epTerm]
                by_cases hold : en_passant_sources e pos.colour_to_move
                    pos.board = 0 <;>
                  simp [hold, cornerChain, squareOf, Sq.rank]
        · by_cases ht2 : mv.to_sq = 6 ∨ mv.to_sq = 62
          · have hrook : castlingRookOkB pos mv 7 5 = true := by
              rw [if_neg ht1, if_pos ht2] at hrookB
              exact hrookB
            simp only [castlingRookOkB, Bool.and_eq_true, decide_eq_true_eq,
              beq_iff_eq, ne_eq] at hrook
            obtain ⟨⟨⟨⟨⟨hrfF, hrfT⟩, hrtF⟩, hrtT⟩, hrfAt⟩, hrtAt⟩ := hrook
            rcases ht2 with h6 | h62
            · have e1 : squareOf 7 (Sq.rank mv.to_sq) = 7 := by
                rw [h6]
                decide
              have e2 : squareOf 5 (Sq.rank mv.to_sq) = 5 := by
                rw [h6]
                decide
              rw [e1] at hrfF hrfT hrfAt
              rw [e2] at hrtF hrtT hrtAt
              refine spec_coreCastle pos mv 7 5 hInv hcr16 hfull hkey h64f
                h64t hne hfrom hto hcast hcap hrfAt hrtAt (by norm_num)
                (by norm_num) hrfF hrfT hrtF hrtT ?_ ?_
              · intro b
                rw [if_neg ht1, if_pos (Or.inl h6), h6, Colour.not_not]
                rfl
              · simp only [Position.makeMoveT, hcap, hpwF, hk, hcast, h6]
                rcases hep : pos.en_passant_square with _ | e
                · simp [epTerm, cornerChain, squareOf, Sq.rank, ht1]
                · simp only [epTerm]
                  by_cases hold : en_passant_sources e pos.colour_to_move
                      pos.board = 0 <;>
                    simp [hold, cornerChain, squareOf, Sq.rank, ht1]
            · have e1 : squareOf 7 (Sq.rank mv.to_sq) = 63 := by
                rw [h62]
                decide
              have e2 : squareOf 5 (Sq.rank mv.to_sq) = 61 := by
                rw [h62]
                decide
              rw [e1] at hrfF hrfT hrfAt
              rw [e2] at hrtF hrtT hrtAt
              refine spec_coreCastle pos mv 63 61 hInv hcr16 hfull hkey h64f
                h64t hne hfrom hto hcast hcap hrfAt hrtAt (by norm_num)
                (by norm_num) hrfF hrfT hrtF hrtT ?_ ?_
              · intro b
                rw [if_neg ht1, if_pos (Or.inr h62), h62, Colour.not_not]
                rfl
              · simp only [Position.makeMoveT, hcap, hpwF, hk, hcast, h62]
                rcases hep : pos.en_passant_square with _ | e
                · simp [epTerm, cornerChain, squareOf, Sq.rank, ht1]
                · simp only [epTerm]
                  by_cases hold : en_passant_sources e pos.colour_to_move
                      pos.board = 0 <;>
                    simp [hold, cornerChain, squareOf, Sq.rank, ht1]
          · -- castling flag with a non-castling target: no rook moves
            refine spec_coreQuiet pos mv
              (pos.castling_rights.removeForColour pos.colour_to_move)
              Option.none ((pos.half_move_clock + 1) % 256) 0
              hInv hfull hkey h64f h64t hne hfrom hto
              (rookRestore_of_otherTarget ht1 ht2 _)
              hcap (removeForColour_mask_lt hcr16)
              (Nat.mod_lt _ (by norm_num)) rfl ?_
            simp only [Position.makeMoveT, hcap, hpwF, hk, hcast]
            rcases hep : pos.en_passant_square with _ | e
            · simp [epTerm, cornerChain, ht1, ht2]
            · simp only [epTerm]
              by_cases hold : en_passant_sources e pos.colour_to_move
                  pos.board = 0 <;> simp [hold, cornerChain, ht1, ht2]
      · -- plain king move
        have hcastF : mv.isCastling = false := by
          rwa [Bool.not_eq_true] at hcast
        rcases hcap : mv.captured_piece with _ | cp
        · have hto : pos.board.pieceAt mv.to_sq = Option.none := by
            simpa [hcap] using hcapM
          refine spec_coreQuiet pos mv
            (pos.castling_rights.removeForColour pos.colour_to_move)
            Option.none ((pos.half_move_clock + 1) % 256) 0
            hInv hfull hkey h64f h64t hne hfrom hto
            (rookRestore_of_notCastling hcastF _) hcap
            (removeForColour_mask_lt hcr16)
            (Nat.mod_lt _ (by norm_num)) rfl ?_
          simp only [Position.makeMoveT, hcap, hpwF, hk, hcastF]
          rcases hep : pos.en_passant_square with _ | e
          · simp [epTerm, cornerChain]
          · simp only [epTerm]
            by_cases hold : en_passant_sources e pos.colour_to_move
                pos.board = 0 <;> simp [hold, cornerChain]
        · by_cases hepc : mv.is_en_passant = true
          · have hfacts : (¬Sq.advance mv.to_sq (pieceColour cp) =
                mv.from_sq ∧
                ¬Sq.advance mv.to_sq (pieceColour cp) = mv.to_sq ∧
                pos.board.pieceAt (Sq.advance mv.to_sq (pieceColour cp)) =
                  some cp) ∧
                pos.board.pieceAt mv.to_sq = Option.none := by
              simpa [hcap, hepc, and_assoc] using hcapM
            obtain ⟨⟨hcsF, hcsT, hcsAt⟩, htoN⟩ := hfacts
            refine spec_coreCapture pos mv cp
              (pos.castling_rights.removeForColour pos.colour_to_move)
              (Sq.advance mv.to_sq (pieceColour cp)) hInv hfull hkey h64f
              h64t hne hfrom hcastF hcap (by rw [if_pos hepc]) hcsAt hcsF
              (Or.inr ⟨hcsT, htoN⟩) (removeForColour_mask_lt hcr16) ?_
            simp only [Position.makeMoveT, hcap, hpwF, hk, hcastF, hepc]
            rcases hep : pos.en_passant_square with _ | e
            · simp [epTerm, cornerChain]
            · simp only [epTerm]
              by_cases hold : en_passant_sources e pos.colour_to_move
                  pos.board = 0 <;> simp [hold, cornerChain]
          · have hcpAt : pos.board.pieceAt mv.to_sq = some cp := by
              simpa [hcap, hepc] using hcapM
            refine spec_coreCapture pos mv cp
              (pos.castling_rights.removeForColour pos.colour_to_move)
              mv.to_sq hInv hfull hkey h64f h64t hne hfrom hcastF hcap
              (by rw [if_neg hepc]) hcpAt (fun h => hne h.symm)
              (Or.inl rfl) (removeForColour_mask_lt hcr16) ?_
            simp only [Position.makeMoveT, hcap, hpwF, hk, hcastF]
            rcases hep : pos.en_passant_square with _ | e
            · simp [epTerm, cornerChain, hepc]
            · simp only [epTerm]
              by_cases hold : en_passant_sources e pos.colour_to_move
                  pos.board = 0 <;> simp [hold, cornerChain, hepc]
    · -- knight, bishop, rook or queen move
      have hkF : isKing mv.piece = false := by
        rwa [Bool.not_eq_true] at hk
      have hcastF : mv.isCastling = false := by
        simp [Move.isCastling, hkF]
      rcases hcap : mv.captured_piece with _ | cp
      · have hto : pos.board.pieceAt mv.to_sq = Option.none := by
          simpa [hcap] using hcapM
        refine spec_coreQuiet pos mv pos.castling_rights Option.none
          ((pos.half_move_clock + 1) % 256) 0
          hInv hfull hkey h64f h64t hne hfrom hto
          (rookRestore_of_notCastling hcastF _) hcap hcr16
          (Nat.mod_lt _ (by norm_num)) rfl ?_
        simp only [Position.makeMoveT, hcap, hpwF, hkF]
        rcases hep : pos.en_passant_square with _ | e
        · simp [epTerm, cornerChain]
        · simp only [epTerm]
          by_cases hold : en_passant_sources e pos.colour_to_move pos.board
              = 0 <;> simp [hold, cornerChain]
      · by_cases hepc : mv.is_en_passant = true
        · have hfacts : (¬Sq.advance mv.to_sq (pieceColour cp) =
              mv.from_sq ∧
              ¬Sq.advance mv.to_sq (pieceColour cp) = mv.to_sq ∧
              pos.board.pieceAt (Sq.advance mv.to_sq (pieceColour cp)) =
                some cp) ∧
              pos.board.pieceAt mv.to_sq = Option.none := by
            simpa [hcap, hepc, and_assoc] using hcapM
          obtain ⟨⟨hcsF, hcsT, hcsAt⟩, htoN⟩ := hfacts
          refine spec_coreCapture pos mv cp pos.castling_rights
            (Sq.advance mv.to_sq (pieceColour cp)) hInv hfull hkey h64f
            h64t hne hfrom hcastF hcap (by rw [if_pos hepc]) hcsAt hcsF
            (Or.inr ⟨hcsT, htoN⟩) hcr16 ?_
          simp only [Position.makeMoveT, hcap, hpwF, hkF, hepc]
          rcases hep : pos.en_passant_square with _ | e
          · simp [epTerm, cornerChain]
          · simp only [epTerm]
            by_cases hold : en_passant_sources e pos.colour_to_move
                pos.board = 0 <;> simp [hold, cornerChain]
        · have hcpAt : pos.board.pieceAt mv.to_sq = some cp := by
            simpa [hcap, hepc] using hcapM
          refine spec_coreCapture pos mv cp pos.castling_rights mv.to_sq
            hInv hfull hkey h64f h64t hne hfrom hcastF hcap
            (by rw [if_neg hepc]) hcpAt (fun h => hne h.symm)
            (Or.inl rfl) hcr16 ?_
          simp only [Position.makeMoveT, hcap, hpwF, hkF]
          rcases hep : pos.en_passant_square with _ | e
          · simp [epTerm, cornerChain, hepc]
          · simp only [epTerm]
            by_cases hold : en_passant_sources e pos.colour_to_move
                pos.board = 0 <;> simp [hold, cornerChain, hepc]

/-- make_null_move on a well-formed position yields a well-formed position
and unmake_null_move restores the original exactly. -/
lemma makeNull_spec (pos : Position) (hwf : pos.Wf) :
    pos.makeNullMove.Wf ∧ pos.makeNullMove.unmakeNullMove = pos := by
  obtain ⟨hInv, hcr16, hhalf, hfull, hkey⟩ := hwf
  have hT : pos.makeNullMove =
      { board := pos.board, colour_to_move := Colour.not pos.colour_to_move,
        castling_rights := pos.castling_rights,
        en_passant_square := Option.none,
        half_move_clock := (pos.half_move_clock + 1) % 256,
        full_move_counter :=
          if pos.colour_to_move = .Black then (pos.full_move_counter + 1) % 256
          else pos.full_move_counter,
        key := (pos.key ^^^
          epTerm pos.en_passant_square pos.colour_to_move pos.board) ^^^
          zobColourToMove,
        history := ⟨pos.castling_rights, pos.en_passant_square,
          pos.half_move_clock, pos.key⟩ :: pos.history } := by
    simp only [Position.makeNullMove]
    rcases hep : pos.en_passant_square with _ | e
    · simp [epTerm]
    · simp only [epTerm]
      by_cases h : en_passant_sources e pos.colour_to_move pos.board = 0 <;>
        simp [h]
  rw [hT]
  constructor
  · refine ⟨hInv, hcr16, Nat.mod_lt _ (by norm_num), ?_, ?_⟩
    · dsimp only
      split_ifs
      · exact Nat.mod_lt _ (by norm_num)
      · exact hfull
    · rw [computeKey_decomp]
      dsimp only
      rw [sideKey_not, epTerm_none]
      rw [computeKey_decomp] at hkey
      rw [hkey]
      simp [Nat.xor_assoc, Nat.xor_comm, xor_left_comm, Nat.xor_cancel_left,
        Nat.xor_self]
  · simp only [Position.unmakeNullMove]
    refine Position.ext' rfl ?_ rfl rfl rfl ?_ rfl rfl
    · exact Colour.not_not pos.colour_to_move
    · dsimp only
      rcases hc : pos.colour_to_move with _ | _
      · simp [Colour.not]
      · simp [Colour.not]
        omega

-- ---------------------------------------------------------------------------
-- The Bool well-formedness check agrees with the Prop invariant
-- ---------------------------------------------------------------------------

lemma allPieces_complete (p : Piece) : p ∈ allPieces := by
  cases p <;> simp [allPieces]

lemma beq_eq_decide_eq {α : Type} [DecidableEq α] [BEq α] [LawfulBEq α]
    (x y : α) : (x == y) = decide (x = y) := by
  by_cases h : x = y <;> simp [h]

lemma pieceAt_ge (b : Board) (i : Nat) (hi : 64 ≤ i) :
    b.pieceAt i = Option.none := by
  unfold Board.pieceAt
  have h : ¬i < 64 := by omega
  rw [dif_neg h]

lemma testBit_ge_of_lt_two64 {x : Nat} (hx : x < two64) (i : Nat)
    (hi : 64 ≤ i) : x.testBit i = false := by
  apply Nat.testBit_lt_two_pow
  calc x < two64 := hx
    _ = 2 ^ 64 := two64_eq
    _ ≤ 2 ^ i := Nat.pow_le_pow_right (by norm_num) hi

lemma invB_iff_Inv (b : Board) : b.invB = true ↔ b.Inv := by
  unfold Board.invB Board.Inv
  simp only [Bool.and_eq_true, List.all_eq_true, decide_eq_true_eq,
    List.mem_range]
  constructor
  · rintro ⟨⟨⟨hp, hw⟩, hb⟩, hmain⟩
    have hcolb : ∀ c, b.colours c < two64 := by
      intro c
      cases c
      · exact hw
      · exact hb
    refine ⟨fun p => hp p (allPieces_complete p), hcolb, ?_, ?_⟩
    · intro p i
      by_cases hi : i < 64
      · have h' : (b.pieces p).testBit i = (b.pieceAt i == some p) :=
          eq_of_beq (((hmain i hi).1).1 p (allPieces_complete p))
        rwa [beq_eq_decide_eq] at h'
      · rw [pieceAt_ge b i (by omega),
          testBit_ge_of_lt_two64 (hp p (allPieces_complete p)) i (by omega)]
        simp
    · intro c i
      by_cases hi : i < 64
      · have h' : (b.colours c).testBit i = colourAtB (b.pieceAt i) c := by
          rcases c with _ | _
          · have h := eq_of_beq (((hmain i hi).1).2)
            rw [h]
            unfold colourAtB
            rcases b.pieceAt i with _ | p
            · rfl
            · simp [beq_eq_decide_eq]
          · have h := eq_of_beq ((hmain i hi).2)
            rw [h]
            unfold colourAtB
            rcases b.pieceAt i with _ | p
            · rfl
            · simp [beq_eq_decide_eq]
        exact h'
      · rw [pieceAt_ge b i (by omega),
          testBit_ge_of_lt_two64 (hcolb c) i (by omega)]
        rfl
  · rintro ⟨h1, h2, h3, h4⟩
    refine ⟨⟨⟨fun p _ => h1 p, h2 .White⟩, h2 .Black⟩, fun i _ => ?_⟩
    refine ⟨⟨fun p _ => ?_, ?_⟩, ?_⟩
    · have := h3 p i
      rw [beq_eq_decide_eq (b.pieceAt i) (some p)]
      exact beq_iff_eq.mpr this
    · apply beq_iff_eq.mpr
      rw [h4 .White i]
      unfold colourAtB
      rcases b.pieceAt i with _ | p
      · rfl
      · simp [beq_eq_decide_eq]
    · apply beq_iff_eq.mpr
      rw [h4 .Black i]
      unfold colourAtB
      rcases b.pieceAt i with _ | p
      · rfl
      · simp [beq_eq_decide_eq]

lemma wfB_iff_Wf (pos : Position) : pos.wfB = true ↔ pos.Wf := by
  unfold Position.wfB Position.Wf
  simp only [Bool.and_eq_true, decide_eq_true_eq, beq_iff_eq,
    invB_iff_Inv]
  tauto

-- ---------------------------------------------------------------------------
-- Well-formedness along valid call traces
-- ---------------------------------------------------------------------------

lemma StackOk_wf : ∀ (st : List (Option Move)) (pos : Position),
    StackOk pos st → pos.Wf := by
  intro st
  induction st with
  | nil => exact fun pos h => h
  | cons o st ih =>
    intro pos h
    rcases o with _ | m
    · obtain ⟨q, hq, rfl⟩ := h
      exact (makeNull_spec q (ih q hq)).1
    · obtain ⟨q, hq, hok, rfl⟩ := h
      rw [makeMove_eq_T]
      exact (makeMoveT_spec q m (ih q hq) hok).1

lemma replay_wf : ∀ (ops : List Op) (pos : Position)
    (st : List (Option Move)), StackOk pos st →
    validOpsB pos ops st = true → ∀ q ∈ replay pos ops, q.Wf := by
  intro ops
  induction ops with
  | nil =>
    intro pos st _ _ q hq
    simp [replay] at hq
  | cons op rest ih =>
    intro pos st hst hv q hq
    rcases op with m | m | _ | _
    · rw [validOpsB, Bool.and_eq_true] at hv
      obtain ⟨hok, hv⟩ := hv
      have hst' : StackOk (pos.makeMove m) (some m :: st) :=
        ⟨pos, hst, hok, rfl⟩
      simp only [replay, applyOp, List.mem_cons] at hq
      rcases hq with rfl | hq
      · exact StackOk_wf _ _ hst'
      · exact ih (pos.makeMove m) (some m :: st) hst' hv q hq
    · rcases st with _ | ⟨om, st'⟩
      · simp [validOpsB] at hv
      · rcases om with _ | m'
        · simp [validOpsB] at hv
        · rw [validOpsB, Bool.and_eq_true, decide_eq_true_eq] at hv
          obtain ⟨rfl, hv⟩ := hv
          obtain ⟨q0, hq0, hok0, rfl⟩ := hst
          have hwf0 := StackOk_wf _ _ hq0
          have hun : (q0.makeMove m).unmakeMove m = q0 := by
            rw [makeMove_eq_T]
            exact (makeMoveT_spec q0 m hwf0 hok0).2
          simp only [replay, applyOp, List.mem_cons] at hq
          rcases hq with rfl | hq
          · rw [hun]
            exact hwf0
          · rw [hun] at hq
            exact ih q0 st' hq0 (by rwa [hun] at hv) q hq
    · rw [validOpsB] at hv
      have hst' : StackOk pos.makeNullMove (Option.none :: st) :=
        ⟨pos, hst, rfl⟩
      simp only [replay, applyOp, List.mem_cons] at hq
      rcases hq with rfl | hq
      · exact StackOk_wf _ _ hst'
      · exact ih pos.makeNullMove (Option.none :: st) hst' hv q hq
    · rcases st with _ | ⟨om, st'⟩
      · simp [validOpsB] at hv
      · rcases om with _ | m'
        · rw [validOpsB] at hv
          obtain ⟨q0, hq0, rfl⟩ := hst
          have hwf0 := StackOk_wf _ _ hq0
          have hun : q0.makeNullMove.unmakeNullMove = q0 :=
            (makeNull_spec q0 hwf0).2
          simp only [replay, applyOp, List.mem_cons] at hq
          rcases hq with rfl | hq
          · rw [hun]
            exact hwf0
          · rw [hun] at hq
            exact ih q0 st' hq0 (by rwa [hun] at hv) q hq
        · simp [validOpsB] at hv

-- ---------------------------------------------------------------------------
-- C10: the throwing branch of remove_for_square is unreachable in make_move
-- ---------------------------------------------------------------------------

/-- C10: CastlingRights::remove_for_square throws std::invalid_argument
(modelled as none) for every square other than a1, h1, a8, h8; inside
make_move it is called only under is_corner() guards, so make_move never
reaches the throwing branch: the Option-valued translation of make_move
succeeds on every input. -/
theorem castling_throw_unreachable :
    (∀ (cr : CastlingRights) (s : Square),
        ¬(s = 0 ∨ s = 7 ∨ s = 56 ∨ s = 63) →
        cr.removeForSquare s = Option.none) ∧
    (∀ (pos : Position) (mv : Move), (pos.makeMove? mv).isSome = true) := by
  constructor
  · intro cr s h
    push_neg at h
    obtain ⟨h0, h7, h56, h63⟩ := h
    simp [CastlingRights.removeForSquare, h0, h7, h56, h63]
  · intro pos mv
    simp only [Position.makeMove?]
    exact cornerStep_isSome _ _ _ _

/-- Witness for C10 at a concrete non-corner square and a concrete
position and move. -/
theorem castling_throw_unreachable_witness :
    ¬((28 : Square) = 0 ∨ (28 : Square) = 7 ∨ (28 : Square) = 56 ∨
      (28 : Square) = 63) ∧
    CastlingRights.all.removeForSquare 28 = Option.none ∧
    (startpos.makeMove? ⟨.WP, 12, 28, Option.none, Option.none, false⟩).isSome
      = true := by
  refine ⟨by decide, ?_, ?_⟩
  · exact castling_throw_unreachable.1 CastlingRights.all 28 (by decide)
  · exact castling_throw_unreachable.2 startpos _

-- ---------------------------------------------------------------------------
-- C7: set-hash-size validates rather than clamps
-- ---------------------------------------------------------------------------

/-- C7 counterexample: the claim says every requested size completes
without error with effective size min(4096, max(1, requested)); at 4097
the code throws std::invalid_argument (none) instead of configuring
4096. -/
theorem set_hash_size_counterexample :
    TranspositionTable.set_size_mb 4097 = Option.none ∧
    specSetHashSize 4097 = 4096 := by
  constructor <;> rfl

/-- C7 amended: set-hash-size accepts exactly the range [1, 4096]: inside
it the requested size is stored unchanged, outside it the call throws
std::invalid_argument (none) and no size is configured; the engine method
delegates unchanged. -/
theorem set_hash_size_amended :
    ∀ n : Nat,
      TranspositionTable.set_size_mb n =
        (if TT_MIN_SIZE_MB ≤ n ∧ n ≤ TT_MAX_SIZE_MB then some n
         else Option.none) ∧
      (∀ e : Engine, e.set_hash_size_mb n = TranspositionTable.set_size_mb n) := by
  intro n
  refine ⟨?_, fun _ => rfl⟩
  simp only [TranspositionTable.set_size_mb, TT_MIN_SIZE_MB, TT_MAX_SIZE_MB]
  split_ifs <;> first | rfl | omega

-- ---------------------------------------------------------------------------
-- C3: transposition table probe and store
-- ---------------------------------------------------------------------------

/-- C3 counterexample: the claim says store increments the usage counter
exactly when the replaced slot was never written before. Storing key 0
(the empty sentinel) twice at increasing depth writes the same slot twice
and increments usage both times, although the slot was already written
before the second store. -/
theorem tt_store_usage_counterexample :
    ((TranspositionTable.fresh 4).store 0 2 5 .Lower Option.none).entries 0 ≠
      (TranspositionTable.fresh 4).entries 0 ∧
    ((TranspositionTable.fresh 4).store 0 2 5 .Lower Option.none).usage = 1 ∧
    (((TranspositionTable.fresh 4).store 0 2 5 .Lower Option.none).store 0 3 7
        .Exact Option.none).usage = 2 := by
  refine ⟨by decide, by decide, by decide⟩

/-- C3 amended: probe(key) returns the entry at slot key & (capacity - 1)
exactly when that entry's key equals the probed key (otherwise null);
store(key, depth, eval, bound, move) overwrites that slot exactly when the
incoming depth is at least the stored depth, leaves every other slot
unchanged, and increments the usage counter exactly when it overwrites a
slot whose stored key is 0 - the never-written sentinel, which a store
with true key 0 also leaves behind. -/
theorem tt_probe_store_amended :
    ∀ (tt : TranspositionTable) (key depth : Nat) (ev : Int) (bound : Bound)
      (move : Option Move),
      (tt.probe key =
        (if (tt.entries (key &&& (tt.capacity - 1))).key = key
         then some (tt.entries (key &&& (tt.capacity - 1)))
         else Option.none)) ∧
      (∀ j : Nat, (tt.store key depth ev bound move).entries j =
        (if j = (key &&& (tt.capacity - 1)) ∧
            depth ≥ (tt.entries (key &&& (tt.capacity - 1))).depth
         then (⟨key, depth, ev, bound, move⟩ : TTEntry)
         else tt.entries j)) ∧
      ((tt.store key depth ev bound move).usage =
        tt.usage +
          (if depth ≥ (tt.entries (key &&& (tt.capacity - 1))).depth ∧
              (tt.entries (key &&& (tt.capacity - 1))).key = 0
           then 1 else 0)) ∧
      ((tt.store key depth ev bound move).capacityLog = tt.capacityLog) := by
  intro tt key depth ev bound move
  refine ⟨rfl, ?_, ?_, ?_⟩
  · intro j
    simp only [TranspositionTable.store]
    by_cases hd : depth ≥ (tt.entries (key &&& (tt.capacity - 1))).depth
    · rw [if_pos hd]
      by_cases hj : j = key &&& (tt.capacity - 1) <;> simp [hj, hd]
    · rw [if_neg hd]
      simp [hd]
  · simp only [TranspositionTable.store]
    by_cases hd : depth ≥ (tt.entries (key &&& (tt.capacity - 1))).depth
    · rw [if_pos hd]
      by_cases hk : (tt.entries (key &&& (tt.capacity - 1))).key = 0 <;>
        simp [hk, hd]
    · rw [if_neg hd]
      simp [hd]
  · simp only [TranspositionTable.store]
    split_ifs <;> rfl

-- ---------------------------------------------------------------------------
-- C8: the search-local transposition table starts empty every search
-- ---------------------------------------------------------------------------

/-- C8 (code divergence): search::search constructs a fresh local
TranspositionTable at the start of every invocation (the engine's tt_
member and the declared shared-table overload are never used), so an entry
stored during one search is probeable in that search's own table but the
table the next invocation starts from probes empty for every nonzero
key. -/
theorem search_tt_not_persistent :
    ∀ (log k d : Nat) (ev : Int) (b : Bound) (m : Option Move),
      k ≠ 0 →
      (((searchEntryTT log).store k d ev b m).probe k).isSome = true ∧
      (searchEntryTT log).probe k = Option.none := by
  intro log k d ev b m hk
  constructor
  · simp [searchEntryTT, TranspositionTable.fresh, TranspositionTable.store,
      TranspositionTable.probe, TranspositionTable.capacity, default,
      Nat.zero_le]
  · simp [searchEntryTT, TranspositionTable.fresh, TranspositionTable.probe,
      TranspositionTable.capacity, default]
    exact fun h => absurd h.symm hk

/-- Witness for C8 at a concrete key and capacity. -/
theorem search_tt_not_persistent_witness :
    (42 : Nat) ≠ 0 ∧
    ((((searchEntryTT 4).store 42 3 1 .Exact Option.none).probe 42).isSome
        = true ∧
      (searchEntryTT 4).probe 42 = Option.none) :=
  ⟨by decide, search_tt_not_persistent 4 42 3 1 .Exact Option.none (by decide)⟩

-- ---------------------------------------------------------------------------
-- C9: Engine::search leaves the engine's position untouched
-- ---------------------------------------------------------------------------

/-- C9: Engine::search copies the stored position and searches on the
copy, so whatever the search routine does to its position argument, the
engine and every component of its stored position (board, side to move,
castling rights, en passant square, clocks, key, history) are unchanged by
the call. -/
theorem engine_search_preserves_position :
    ∀ (e : Engine) (searchFn : Position → SearchResult × Position),
      (e.search searchFn).2 = e ∧
      (e.search searchFn).2.pos.board = e.pos.board ∧
      (e.search searchFn).2.pos.colour_to_move = e.pos.colour_to_move ∧
      (e.search searchFn).2.pos.castling_rights = e.pos.castling_rights ∧
      (e.search searchFn).2.pos.en_passant_square = e.pos.en_passant_square ∧
      (e.search searchFn).2.pos.half_move_clock = e.pos.half_move_clock ∧
      (e.search searchFn).2.pos.full_move_counter = e.pos.full_move_counter ∧
      (e.search searchFn).2.pos.key = e.pos.key ∧
      (e.search searchFn).2.pos.history = e.pos.history :=
  fun _ _ => ⟨rfl, rfl, rfl, rfl, rfl, rfl, rfl, rfl, rfl⟩

-- ---------------------------------------------------------------------------
-- C4: the knight-dance repetition draw
-- ---------------------------------------------------------------------------

set_option maxRecDepth 1000000 in
/-- C4: from the standard starting position, playing Ng1-f3, Ng8-f6,
Nf3-g1, Nf6-g8 twice makes is_repetition_draw(0) return true after the
eighth ply and false after every proper prefix of the sequence. -/
theorem repetition_draw_knight_dance :
    (danceState 8).isRepetitionDraw 0 = true ∧
    ((List.range 8).all fun k => (danceState k).isRepetitionDraw 0 == false)
      = true := by
  constructor
  · decide
  · decide

-- ---------------------------------------------------------------------------
-- C6: move ordering
-- ---------------------------------------------------------------------------

/-- C6 counterexample: the claim scores a promotion without capture as
promotion_value*100 - attacker (89900 for a queen promotion), which would
order the promotion a7a8=Q before the capture b4xc5 (9900); order_moves
puts the capture first because non-capture promotions get the fixed score
1 behind every capture. In quiescence the claim's attacker is the mover
(a7xb8=Q scores 49900, above RxR at 49500), but the code uses the
promotion piece as the attacker, ordering RxR first. -/
theorem move_ordering_counterexample :
    order_moves
      [⟨.WP, 48, 56, Option.none, some .WQ, false⟩,
       ⟨.WP, 25, 34, some .BP, Option.none, false⟩] KillerMoves.init 0 =
      [⟨.WP, 25, 34, some .BP, Option.none, false⟩,
       ⟨.WP, 48, 56, Option.none, some .WQ, false⟩] ∧
    order_quiescence_moves
      [⟨.WP, 48, 56, Option.none, some .WQ, false⟩,
       ⟨.WP, 25, 34, some .BP, Option.none, false⟩] =
      [⟨.WP, 25, 34, some .BP, Option.none, false⟩,
       ⟨.WP, 48, 56, Option.none, some .WQ, false⟩] ∧
    order_quiescence_moves
      [⟨.WP, 48, 57, some .BR, some .WQ, false⟩,
       ⟨.WR, 0, 8, some .BR, Option.none, false⟩] =
      [⟨.WR, 0, 8, some .BR, Option.none, false⟩,
       ⟨.WP, 48, 57, some .BR, some .WQ, false⟩] ∧
    specMvvLvaScore ⟨.WP, 48, 56, Option.none, some .WQ, false⟩ = some 89900 ∧
    specMvvLvaScore ⟨.WP, 25, 34, some .BP, Option.none, false⟩ = some 9900 ∧
    specMvvLvaScore ⟨.WP, 48, 57, some .BR, some .WQ, false⟩ = some 49900 ∧
    specMvvLvaScore ⟨.WR, 0, 8, some .BR, Option.none, false⟩ = some 49500 := by
  refine ⟨by decide, by decide, by decide, rfl, rfl, rfl, rfl⟩

lemma insertByScore_eq (score : Move → Int) (mv : Move) (l : List Move) :
    insertByScore score mv l =
      List.orderedInsert (fun a b => score a ≤ score b) mv l := by
  induction l with
  | nil => rfl
  | cons x xs ih => simp [insertByScore, List.orderedInsert, ih]

lemma sortByScore_eq (score : Move → Int) (l : List Move) :
    sortByScore score l =
      List.insertionSort (fun a b => score a ≤ score b) l := by
  induction l with
  | nil => rfl
  | cons x xs ih =>
    show insertByScore score x (sortByScore score xs) = _
    rw [ih, insertByScore_eq]
    rfl

lemma sortByScore_perm (score : Move → Int) (l : List Move) :
    (sortByScore score l).Perm l := by
  rw [sortByScore_eq]
  exact List.perm_insertionSort _ l

lemma sortByScore_pairwise (score : Move → Int) (l : List Move) :
    (sortByScore score l).Pairwise (fun a b => score a ≤ score b) := by
  rw [sortByScore_eq]
  haveI : IsTotal Move (fun a b => score a ≤ score b) :=
    ⟨fun a b => le_total _ _⟩
  haveI : IsTrans Move (fun a b => score a ≤ score b) :=
    ⟨fun _ _ _ => le_trans⟩
  exact List.sorted_insertionSort _ l

/-- C6 amended: both orderings are sorts of the move list by ascending
comparator score. At full nodes captures (including capturing promotions)
score the negated victim_value*100 - attacker_value, so among captures the
higher MVV-LVA score is searched first; a promotion without a capture gets
the fixed score 1, placing it after every capture (not the promotion
piece's value as victim); killers and quiet moves follow. In quiescence
the victim of a non-capture defaults to the mover's own pawn and the
attacker of a promotion is the promotion piece (not the mover). -/
theorem move_ordering_amended :
    (∀ (moves : List Move) (killers : KillerMoves) (ply : Nat),
       (order_moves moves killers ply).Perm moves ∧
       (order_moves moves killers ply).Pairwise (fun a b =>
          orderMovesScore (killers.probe ply 0) (killers.probe ply 1) a ≤
          orderMovesScore (killers.probe ply 0) (killers.probe ply 1) b) ∧
       (order_moves moves killers ply).Pairwise (fun a b =>
          ∀ ca ∈ a.captured_piece, ∀ cb ∈ b.captured_piece,
            PIECE_VALUES cb * 100 - PIECE_VALUES b.piece ≤
            PIECE_VALUES ca * 100 - PIECE_VALUES a.piece)) ∧
    (∀ moves : List Move,
       (order_quiescence_moves moves).Perm moves ∧
       (order_quiescence_moves moves).Pairwise (fun a b =>
          quiescencePriorityScore a ≤ quiescencePriorityScore b) ∧
       (order_quiescence_moves moves).Pairwise (fun a b =>
          PIECE_VALUES (b.captured_piece.getD (pawn (pieceColour b.piece))) *
              100 - PIECE_VALUES (b.promotion_piece.getD b.piece) ≤
          PIECE_VALUES (a.captured_piece.getD (pawn (pieceColour a.piece))) *
              100 - PIECE_VALUES (a.promotion_piece.getD a.piece))) := by
  constructor
  · intro moves killers ply
    refine ⟨sortByScore_perm _ _, sortByScore_pairwise _ _, ?_⟩
    refine (sortByScore_pairwise _ moves).imp ?_
    intro a b hab ca hca cb hcb
    rw [Option.mem_def] at hca hcb
    simp only [orderMovesScore, capture_priority_score, hca, hcb,
      Option.isSome_some, if_true] at hab
    omega
  · intro moves
    refine ⟨sortByScore_perm _ _, sortByScore_pairwise _ _, ?_⟩
    refine (sortByScore_pairwise _ moves).imp ?_
    intro a b hab
    simp only [quiescencePriorityScore] at hab
    omega

-- ---------------------------------------------------------------------------
-- C1: the incremental key equals the recomputed key after every call
-- ---------------------------------------------------------------------------

/-- C1: starting from any well-formed position, along any well-nested
sequence of make_move / unmake_move / make_null_move / unmake_null_move
calls whose makes use coherent (generator-produced) moves and whose
unmakes match the innermost outstanding make, the incrementally
maintained key field of every intermediate position equals compute_key()
recomputed from scratch on that position. -/
theorem key_incremental_after_calls (pos : Position) (ops : List Op)
    (hwf : pos.wfB = true) (hv : validOpsB pos ops [] = true) :
    ∀ q ∈ replay pos ops, q.key = q.computeKey := by
  intro q hq
  exact (replay_wf ops pos [] ((wfB_iff_Wf pos).mp hwf) hv q hq).2.2.2.2

set_option maxRecDepth 1000000 in
/-- Witness for C1: from the start position, make the double push e2-e4,
make and unmake a null move, then unmake e2-e4; the trace is valid and
every intermediate position's key equals its recomputed key. -/
theorem key_incremental_after_calls_witness :
    startpos.wfB = true ∧
    validOpsB startpos
      [Op.make ⟨.WP, 12, 28, Option.none, Option.none, false⟩, Op.makeNull,
        Op.unmakeNull,
        Op.unmake ⟨.WP, 12, 28, Option.none, Option.none, false⟩] [] =
      true ∧
    ∀ q ∈ replay startpos
      [Op.make ⟨.WP, 12, 28, Option.none, Option.none, false⟩, Op.makeNull,
        Op.unmakeNull,
        Op.unmake ⟨.WP, 12, 28, Option.none, Option.none, false⟩],
      q.key = q.computeKey :=
  ⟨by decide, by decide,
   key_incremental_after_calls startpos
     [Op.make ⟨.WP, 12, 28, Option.none, Option.none, false⟩, Op.makeNull,
       Op.unmakeNull,
       Op.unmake ⟨.WP, 12, 28, Option.none, Option.none, false⟩]
     (by decide) (by decide)⟩

-- ---------------------------------------------------------------------------
-- C2: make then unmake restores the position bit for bit
-- ---------------------------------------------------------------------------

/-- C2: for a well-formed position and a coherent move, make_move followed
by unmake_move of that move restores every component exactly: the board
(mailbox and with it all twelve piece bitboards and both colour
bitboards, which the invariant ties to the mailbox), side to move,
castling rights, en passant square, half-move clock, full-move counter,
Zobrist key, and the history (in particular its length, which make_move
had grown by one). -/
theorem make_unmake_roundtrip (pos : Position) (mv : Move)
    (hwf : pos.wfB = true) (hok : mv.okB pos = true) :
    ((pos.makeMove mv).unmakeMove mv).board = pos.board ∧
    ((pos.makeMove mv).unmakeMove mv).colour_to_move =
      pos.colour_to_move ∧
    ((pos.makeMove mv).unmakeMove mv).castling_rights =
      pos.castling_rights ∧
    ((pos.makeMove mv).unmakeMove mv).en_passant_square =
      pos.en_passant_square ∧
    ((pos.makeMove mv).unmakeMove mv).half_move_clock =
      pos.half_move_clock ∧
    ((pos.makeMove mv).unmakeMove mv).full_move_counter =
      pos.full_move_counter ∧
    ((pos.makeMove mv).unmakeMove mv).key = pos.key ∧
    ((pos.makeMove mv).unmakeMove mv).history = pos.history ∧
    (pos.makeMove mv).history.length = pos.history.length + 1 := by
  have h : (pos.makeMove mv).unmakeMove mv = pos := by
    rw [makeMove_eq_T]
    exact (makeMoveT_spec pos mv ((wfB_iff_Wf pos).mp hwf) hok).2
  rw [h]
  refine ⟨rfl, rfl, rfl, rfl, rfl, rfl, rfl, rfl, ?_⟩
  rw [makeMove_eq_T]
  simp [Position.makeMoveT]

-- ---------------------------------------------------------------------------
-- C5: the terminal mate/stalemate score of alphabeta
-- ---------------------------------------------------------------------------

/-- When every generated move is dropped as illegal (its make leaves the
own king in check), the move loop of alphabeta returns its initial state
unchanged: each illegal move is unmade exactly, and nothing else runs. -/
lemma abMoveLoop_all_illegal (ab : ABSearch) (c : Colour) (depth : Nat)
    (beta : Int) (inCheck : Bool) (staticEval : Int) :
    ∀ (moves : List Move) (st : ABLoopState),
    st.done = Option.none → st.ttMove = Option.none → st.pos.Wf →
    (∀ mv ∈ moves, mv.okB st.pos = true ∧
      is_in_check c (st.pos.makeMove mv).board = true) →
    abMoveLoop ab c depth beta inCheck staticEval moves st = st := by
  intro moves
  induction moves with
  | nil =>
    intro st _ _ _ _
    rfl
  | cons mv rest ih =>
    intro st hdone httm hwf hmv
    have hrest : (st.pos.makeMove mv).unmakeMove mv = st.pos := by
      rw [makeMove_eq_T]
      exact (makeMoveT_spec st.pos mv hwf
        (hmv mv (List.mem_cons_self mv rest)).1).2
    simp only [abMoveLoop, hdone, httm, Option.isSome_none,
      Bool.false_eq_true, if_false,
      (hmv mv (List.mem_cons_self mv rest)).2, if_true, hrest]
    have hrec : ({ st with ttMove := Option.none, done := Option.none } :
        ABLoopState) = st := by
      rw [← hdone, ← httm]
    rw [hrec]
    exact ih st hdone httm hwf
      (fun m hm => hmv m (List.mem_cons_of_mem mv hm))

/-- C5: an alphabeta invocation that reaches the move loop -- the stop,
draw and leaf stages pass, the table probe yields no cutoff and no
remembered move, and the null-move block (whether skipped or run and
failed low) produces no cutoff, handing the loop the post-null state --
and in which every generated pseudo-legal move is dropped as illegal
(its make leaves the mover's own king in check) returns -10000 + ply
when the side to move is in check (mate) and 0 otherwise (stalemate). -/
theorem alphabeta_no_legal_moves_terminal
    (fuel : Nat) (pos pos2 : Position) (depth : Nat) (alpha beta : Int)
    (pv0 : List Move) (tt tt2 : TranspositionTable)
    (killers killers2 : KillerMoves) (report report2 : Report)
    (stopper : Stopper)
    (hstop : stopper.should_stop report = false)
    (hdraw : (pos.isFiftyMoveDraw || pos.isRepetitionDraw report.ply) =
      false)
    (hleaf : (depth = 0 && !is_in_check pos.colour_to_move pos.board) =
      false)
    (htt : ttProbeOutcome (tt.probe pos.key)
      (if depth = 0 then 1 else depth) alpha beta report.ply =
      .inr Option.none)
    (hnm : nullMoveStep
      (fun p d a b pv t k r => alphabeta fuel p d a b pv t k r stopper)
      pos (if depth = 0 then 1 else depth) beta
      (is_in_check pos.colour_to_move pos.board) tt killers
      { report with nodes := report.nodes + 1 } =
      (Option.none, pos2, tt2, killers2, report2))
    (h2wf : pos2.wfB = true)
    (hply : report2.ply = report.ply)
    (hmoves : ∀ mv ∈ order_moves (pseudoLegalMoves pos2) killers2
        report2.ply,
      mv.okB pos2 = true ∧
      is_in_check pos.colour_to_move (pos2.makeMove mv).board = true) :
    (alphabeta (fuel + 1) pos depth alpha beta pv0 tt killers report
      stopper).score =
      if is_in_check pos.colour_to_move pos.board then
        -10000 + (report.ply : Int)
      else 0 := by
  simp only [alphabeta, hstop, hdraw, hleaf, Bool.false_eq_true, if_false]
  rw [htt, hnm]
  simp only [ttMoveStep]
  rw [abMoveLoop_all_illegal _ _ _ _ _ _ _ _ rfl rfl
    ((wfB_iff_Wf pos2).mp h2wf) hmoves]
  simp [CENTIPAWN_MATE, CENTIPAWN_DRAW, hply]

set_option maxRecDepth 1000000 in
/-- Witness for C5 at the pinned-knight stalemate (White Bc3, Qb3, Kh6;
Black Kh8, Ng7 to move) searched at depth 3 with the full window: the
null-move preconditions hold (depth 3, not in check, Black has the
knight), the null search runs and fails low, the move loop is reached,
every generated move is illegal, and the returned score is the
stalemate 0. -/
theorem alphabeta_no_legal_moves_terminal_witness :
    (Stopper.should_stop {} {} = false) ∧
    ((pinStalematePos.isFiftyMoveDraw ||
      pinStalematePos.isRepetitionDraw (Report.ply {})) = false) ∧
    (((3 : Nat) = 0 && !is_in_check pinStalematePos.colour_to_move
      pinStalematePos.board) = false) ∧
    (ttProbeOutcome ((TranspositionTable.fresh 0).probe pinStalematePos.key)
      (if (3 : Nat) = 0 then 1 else 3) (-10000) 10000 (Report.ply {}) =
      .inr Option.none) ∧
    (((if (3 : Nat) = 0 then 1 else 3) ≥ 3 &&
      !is_in_check pinStalematePos.colour_to_move pinStalematePos.board &&
      has_non_pawn_material pinStalematePos.board
        pinStalematePos.colour_to_move) = true) ∧
    (nullMoveStep
      (fun p d a b pv t k r => alphabeta 2 p d a b pv t k r {})
      pinStalematePos (if (3 : Nat) = 0 then 1 else 3) 10000
      (is_in_check pinStalematePos.colour_to_move pinStalematePos.board)
      (TranspositionTable.fresh 0) KillerMoves.init
      { ({} : Report) with nodes := Report.nodes {} + 1 } =
      (Option.none,
       (nullMoveStep
         (fun p d a b pv t k r => alphabeta 2 p d a b pv t k r {})
         pinStalematePos (if (3 : Nat) = 0 then 1 else 3) 10000
         (is_in_check pinStalematePos.colour_to_move pinStalematePos.board)
         (TranspositionTable.fresh 0) KillerMoves.init
         { ({} : Report) with nodes := Report.nodes {} + 1 }).2)) ∧
    ((nullMoveStep
      (fun p d a b pv t k r => alphabeta 2 p d a b pv t k r {})
      pinStalematePos (if (3 : Nat) = 0 then 1 else 3) 10000
      (is_in_check pinStalematePos.colour_to_move pinStalematePos.board)
      (TranspositionTable.fresh 0) KillerMoves.init
      { ({} : Report) with nodes := Report.nodes {} + 1 }).2.1.wfB =
      true) ∧
    (∀ mv ∈ order_moves
        (pseudoLegalMoves
          (nullMoveStep
            (fun p d a b pv t k r => alphabeta 2 p d a b pv t k r {})
            pinStalematePos (if (3 : Nat) = 0 then 1 else 3) 10000
            (is_in_check pinStalematePos.colour_to_move
              pinStalematePos.board)
            (TranspositionTable.fresh 0) KillerMoves.init
            { ({} : Report) with nodes := Report.nodes {} + 1 }).2.1)
        (nullMoveStep
          (fun p d a b pv t k r => alphabeta 2 p d a b pv t k r {})
          pinStalematePos (if (3 : Nat) = 0 then 1 else 3) 10000
          (is_in_check pinStalematePos.colour_to_move pinStalematePos.board)
          (TranspositionTable.fresh 0) KillerMoves.init
          { ({} : Report) with nodes := Report.nodes {} + 1 }).2.2.2.1
        (Report.ply {}),
      mv.okB
        (nullMoveStep
          (fun p d a b pv t k r => alphabeta 2 p d a b pv t k r {})
          pinStalematePos (if (3 : Nat) = 0 then 1 else 3) 10000
          (is_in_check pinStalematePos.colour_to_move pinStalematePos.board)
          (TranspositionTable.fresh 0) KillerMoves.init
          { ({} : Report) with nodes := Report.nodes {} + 1 }).2.1 = true ∧
      is_in_check pinStalematePos.colour_to_move
        ((nullMoveStep
          (fun p d a b pv t k r => alphabeta 2 p d a b pv t k r {})
          pinStalematePos (if (3 : Nat) = 0 then 1 else 3) 10000
          (is_in_check pinStalematePos.colour_to_move pinStalematePos.board)
          (TranspositionTable.fresh 0) KillerMoves.init
          { ({} : Report) with nodes := Report.nodes {} + 1
          }).2.1.makeMove mv).board = true) ∧
    (alphabeta 3 pinStalematePos 3 (-10000) 10000 []
      (TranspositionTable.fresh 0) KillerMoves.init {} {}).score =
      (if is_in_check pinStalematePos.colour_to_move
          pinStalematePos.board then
        -10000 + ((Report.ply {} : Nat) : Int)
      else 0) :=
  ⟨by decide, by decide, by decide, by decide, by decide,
   Prod.ext (by decide) rfl, by decide, by decide,
   alphabeta_no_legal_moves_terminal 2 pinStalematePos _ 3 (-10000) 10000
     [] (TranspositionTable.fresh 0) _ KillerMoves.init _ {} _ {}
     (by decide) (by decide) (by decide) (by decide)
     (Prod.ext (by decide) rfl) (by decide) (by decide) (by decide)⟩

set_option maxRecDepth 1000000 in
/-- Witness for C2 at the start position with the double push e2-e4. -/
theorem make_unmake_roundtrip_witness :
    startpos.wfB = true ∧
    Move.okB startpos ⟨.WP, 12, 28, Option.none, Option.none, false⟩ =
      true ∧
    ((startpos.makeMove
      ⟨.WP, 12, 28, Option.none, Option.none, false⟩).unmakeMove
      ⟨.WP, 12, 28, Option.none, Option.none, false⟩).board =
      startpos.board :=
  ⟨by decide, by decide,
   (make_unmake_roundtrip startpos
     ⟨.WP, 12, 28, Option.none, Option.none, false⟩
     (by decide) (by decide)).1⟩

end C3
